import Mathlib

/-!
Checked integral conversions of `bsl` (`include/bsl/convert.hpp`).

A shallow embedding of `bsl::convert` and of the part of `bsl::safe_integral`
it relies on.  Raw C++ integers are mathematical integers (`Int`) together
with an explicit range predicate; every C++ `static_cast` between integral
types is the explicit reduction modulo `2 ^ width`.
-/

namespace bsl

/-- The ten fixed-width integral types `bsl::convert` is instantiated with
(`bsl::int8` ... `bsl::uintmax` of `cstdint.hpp`). -/
inductive IntType where
  | int8 | int16 | int32 | int64 | intmax
  | uint8 | uint16 | uint32 | uint64 | uintmax
  deriving DecidableEq, Repr

/-- What the C++ platform fixes and `convert.hpp` leaves open:
whether `bsl::intmax` / `bsl::uintmax` are the very same types as
`bsl::int64` / `bsl::uint64` (true where both are `long`), or distinct types
of the same width.  Every definition that depends on it takes it as a
parameter and every theorem holds for both choices. -/
structure Platform where
  max_aliases_64 : Bool
  deriving DecidableEq, Repr

/-- Modelled from the spec: `is_signed.hpp` is not among the sources; the
spec names "int8/16/32/64/intmax or the unsigned counterparts". -/
def is_signed : IntType → Bool
  | .int8 | .int16 | .int32 | .int64 | .intmax => true
  | .uint8 | .uint16 | .uint32 | .uint64 | .uintmax => false

/-- Modelled from the spec: the bit width of each fixed-width type; the spec
treats `intmax` / `uintmax` as the 64-bit types. -/
def width : IntType → Nat
  | .int8 | .uint8 => 8
  | .int16 | .uint16 => 16
  | .int32 | .uint32 => 32
  | .int64 | .uint64 => 64
  | .intmax | .uintmax => 64

/-- Modelled from the spec: `numeric_limits<T>::max()` of `numeric_limits.hpp`
(not among the sources), "the true max of T". -/
def numeric_limits_max : IntType → Int
  | .int8 => 127
  | .int16 => 32767
  | .int32 => 2147483647
  | .int64 => 9223372036854775807
  | .intmax => 9223372036854775807
  | .uint8 => 255
  | .uint16 => 65535
  | .uint32 => 4294967295
  | .uint64 => 18446744073709551615
  | .uintmax => 18446744073709551615

/-- Modelled from the spec: `numeric_limits<T>::min()` of `numeric_limits.hpp`
(not among the sources), "the true min of T". -/
def numeric_limits_min : IntType → Int
  | .int8 => -128
  | .int16 => -32768
  | .int32 => -2147483648
  | .int64 => -9223372036854775808
  | .intmax => -9223372036854775808
  | .uint8 | .uint16 | .uint32 | .uint64 | .uintmax => 0

/-- A mathematical integer is a value of the C++ type `T`. -/
def is_value (T : IntType) (v : Int) : Prop :=
  numeric_limits_min T ≤ v ∧ v ≤ numeric_limits_max T

instance (T : IntType) (v : Int) : Decidable (is_value T v) :=
  inferInstanceAs (Decidable (_ ∧ _))

/-- The C++ integral conversion `static_cast<T>(v)`: the unique value of `T`
congruent to `v` modulo `2 ^ width T` (two's complement for signed `T`). -/
def static_cast (T : IntType) (v : Int) : Int :=
  (v - numeric_limits_min T) % (2 : Int) ^ width T + numeric_limits_min T

/-- Modelled from the spec: `is_same<F, T>` of `is_same.hpp` (not among the
sources) over the ten named types.  Two names denote the same type when they
are the same name, or when the platform makes `intmax` / `uintmax` aliases of
`int64` / `uint64`. -/
def is_same (P : Platform) (F T : IntType) : Bool :=
  decide (F = T) ||
    (P.max_aliases_64 &&
      ((F == .int64 && T == .intmax) || (F == .intmax && T == .int64) ||
       (F == .uint64 && T == .uintmax) || (F == .uintmax && T == .uint64)))

/-- Modelled from the spec: `safe_integral<T>` of `safe_integral.hpp` (not
among the sources): "`value: T` (the fixed-width payload)" and
"`poisoned: bool`".  `safe_integral.mk v false` is the C++ `safe_integral<T>{v}`
and `safe_integral.mk v true` is `safe_integral<T>{v, true}`. -/
structure safe_integral (T : IntType) where
  value : Int
  poisoned : Bool
  deriving DecidableEq, Repr

/-- Modelled from the spec: "`get() -> T`: returns the stored value regardless
of poison state". -/
def safe_integral.get {T : IntType} (s : safe_integral T) : Int := s.value

/-- Modelled from the spec: "`valid() -> bool`: query the poison flag". -/
def safe_integral.valid {T : IntType} (s : safe_integral T) : Bool := !s.poisoned

/-- Modelled from the spec: "`invalid() -> bool`: query the poison flag". -/
def safe_integral.invalid {T : IntType} (s : safe_integral T) : Bool := s.poisoned

/-- Modelled from the spec: `safe_integral<T>::failure()`, "same numeric value
as default, but poisoned"; the failure paths carry "value `0`". -/
def safe_integral.failure (T : IntType) : safe_integral T := safe_integral.mk 0 true

/-- The raw overload `convert<T>(F const &val)` of `convert.hpp`, lines 79-181.
Each `if constexpr` is an ordinary conditional on the same compile-time
facts; `static_cast<bsl::intmax>` and `static_cast<bsl::uintmax>` are kept
where the source has them. -/
def convert (P : Platform) (T F : IntType) (val : Int) : safe_integral T :=
  if is_same P F T then
    safe_integral.mk (static_cast T val) false
  else if is_signed F then
    if is_signed T then
      let t_max : Int := static_cast .intmax (numeric_limits_max T)
      let t_min : Int := static_cast .intmax (numeric_limits_min T)
      let f_max : Int := static_cast .intmax (numeric_limits_max F)
      if f_max < t_max then
        safe_integral.mk (static_cast T val) false
      else if f_max = t_max then
        safe_integral.mk (static_cast T val) false
      else
        if static_cast .intmax val > t_max then
          safe_integral.failure T
        else if static_cast .intmax val < t_min then
          safe_integral.failure T
        else
          safe_integral.mk (static_cast T val) false
    else
      let t_max : Int := static_cast .uintmax (numeric_limits_max T)
      let f_max : Int := static_cast .uintmax (numeric_limits_max F)
      if static_cast .intmax val < static_cast .intmax 0 then
        safe_integral.failure T
      else if f_max < t_max then
        safe_integral.mk (static_cast T val) false
      else if f_max = t_max then
        safe_integral.mk (static_cast T val) false
      else
        if static_cast .uintmax val > t_max then
          safe_integral.failure T
        else
          safe_integral.mk (static_cast T val) false
  else
    if is_signed T then
      let t_max : Int := static_cast .uintmax (numeric_limits_max T)
      let f_max : Int := static_cast .uintmax (numeric_limits_max F)
      if f_max < t_max then
        safe_integral.mk (static_cast T val) false
      else if f_max = t_max then
        safe_integral.mk (static_cast T val) false
      else
        if static_cast .uintmax val > t_max then
          safe_integral.failure T
        else
          safe_integral.mk (static_cast T val) false
    else
      let t_max : Int := static_cast .uintmax (numeric_limits_max T)
      let f_max : Int := static_cast .uintmax (numeric_limits_max F)
      if f_max < t_max then
        safe_integral.mk (static_cast T val) false
      else if f_max = t_max then
        safe_integral.mk (static_cast T val) false
      else
        if static_cast .uintmax val > t_max then
          safe_integral.failure T
        else
          safe_integral.mk (static_cast T val) false

/-- The overload `convert<T>(safe_integral<F> const &val)` of `convert.hpp`,
lines 202-211: a poisoned source returns `failure()` before anything else. -/
def convert_safe (P : Platform) (T F : IntType) (val : safe_integral F) : safe_integral T :=
  if val.invalid then
    safe_integral.failure T
  else
    convert P T F val.get

/-! The predefined conversion functions, `convert.hpp` lines 217-725.  For each
destination the raw overload keeps the name of the source and the
`safe_integral` overload carries the suffix `_safe`. -/

/-- The overload `to_i8(safe_integral<T> const &val)`: `return convert<bsl::int8>(val);`. -/
def to_i8_safe (P : Platform) {F : IntType} (val : safe_integral F) : safe_integral .int8 :=
  convert_safe P .int8 F val

/-- The overload `to_i8(T const val)` on a raw value of type `F`:
`return convert<bsl::int8>(val);`. -/
def to_i8 (P : Platform) (F : IntType) (val : Int) : safe_integral .int8 :=
  convert P .int8 F val

/-- The overload `to_i16(safe_integral<T> const &val)`: `return convert<bsl::int16>(val);`. -/
def to_i16_safe (P : Platform) {F : IntType} (val : safe_integral F) : safe_integral .int16 :=
  convert_safe P .int16 F val

/-- The overload `to_i16(T const val)` on a raw value of type `F`:
`return convert<bsl::int16>(val);`. -/
def to_i16 (P : Platform) (F : IntType) (val : Int) : safe_integral .int16 :=
  convert P .int16 F val

/-- The overload `to_i32(safe_integral<T> const &val)`: `return convert<bsl::int32>(val);`. -/
def to_i32_safe (P : Platform) {F : IntType} (val : safe_integral F) : safe_integral .int32 :=
  convert_safe P .int32 F val

/-- The overload `to_i32(T const val)` on a raw value of type `F`:
`return convert<bsl::int32>(val);`. -/
def to_i32 (P : Platform) (F : IntType) (val : Int) : safe_integral .int32 :=
  convert P .int32 F val

/-- The overload `to_i64(safe_integral<T> const &val)`: `return convert<bsl::int64>(val);`. -/
def to_i64_safe (P : Platform) {F : IntType} (val : safe_integral F) : safe_integral .int64 :=
  convert_safe P .int64 F val

/-- The overload `to_i64(T const val)` on a raw value of type `F`:
`return convert<bsl::int64>(val);`. -/
def to_i64 (P : Platform) (F : IntType) (val : Int) : safe_integral .int64 :=
  convert P .int64 F val

/-- The overload `to_imax(safe_integral<T> const &val)`: `return convert<bsl::intmax>(val);`. -/
def to_imax_safe (P : Platform) {F : IntType} (val : safe_integral F) : safe_integral .intmax :=
  convert_safe P .intmax F val

/-- The overload `to_imax(T const val)` on a raw value of type `F`:
`return convert<bsl::intmax>(val);`. -/
def to_imax (P : Platform) (F : IntType) (val : Int) : safe_integral .intmax :=
  convert P .intmax F val

/-- The overload `to_u8(safe_integral<T> const &val)`: `return convert<bsl::uint8>(val);`. -/
def to_u8_safe (P : Platform) {F : IntType} (val : safe_integral F) : safe_integral .uint8 :=
  convert_safe P .uint8 F val

/-- The overload `to_u8(T const val)` on a raw value of type `F`:
`return convert<bsl::uint8>(val);`. -/
def to_u8 (P : Platform) (F : IntType) (val : Int) : safe_integral .uint8 :=
  convert P .uint8 F val

/-- The overload `to_u16(safe_integral<T> const &val)`: `return convert<bsl::uint16>(val);`. -/
def to_u16_safe (P : Platform) {F : IntType} (val : safe_integral F) : safe_integral .uint16 :=
  convert_safe P .uint16 F val

/-- The overload `to_u16(T const val)` on a raw value of type `F`:
`return convert<bsl::uint16>(val);`. -/
def to_u16 (P : Platform) (F : IntType) (val : Int) : safe_integral .uint16 :=
  convert P .uint16 F val

/-- The overload `to_u32(safe_integral<T> const &val)`: `return convert<bsl::uint32>(val);`. -/
def to_u32_safe (P : Platform) {F : IntType} (val : safe_integral F) : safe_integral .uint32 :=
  convert_safe P .uint32 F val

/-- The overload `to_u32(T const val)` on a raw value of type `F`:
`return convert<bsl::uint32>(val);`. -/
def to_u32 (P : Platform) (F : IntType) (val : Int) : safe_integral .uint32 :=
  convert P .uint32 F val

/-- The overload `to_u64(safe_integral<T> const &val)`: `return convert<bsl::uint64>(val);`. -/
def to_u64_safe (P : Platform) {F : IntType} (val : safe_integral F) : safe_integral .uint64 :=
  convert_safe P .uint64 F val

/-- The overload `to_u64(T const val)` on a raw value of type `F`:
`return convert<bsl::uint64>(val);`. -/
def to_u64 (P : Platform) (F : IntType) (val : Int) : safe_integral .uint64 :=
  convert P .uint64 F val

/-- The overload `to_umax(safe_integral<T> const &val)`: `return convert<bsl::uintmax>(val);`. -/
def to_umax_safe (P : Platform) {F : IntType} (val : safe_integral F) : safe_integral .uintmax :=
  convert_safe P .uintmax F val

/-- The overload `to_umax(T const val)` on a raw value of type `F`:
`return convert<bsl::uintmax>(val);`. -/
def to_umax (P : Platform) (F : IntType) (val : Int) : safe_integral .uintmax :=
  convert P .uintmax F val

/-- The overload `to_u8_unsafe(safe_integral<T> const &val)`:
`return safe_uint8{static_cast<bsl::uint8>(val.get())};`. -/
def to_u8_unsafe_safe {F : IntType} (val : safe_integral F) : safe_integral .uint8 :=
  safe_integral.mk (static_cast .uint8 val.get) false

/-- The overload `to_u8_unsafe(T const val)` on a raw value:
`return safe_uint8{static_cast<bsl::uint8>(val)};`. -/
def to_u8_unsafe (val : Int) : safe_integral .uint8 :=
  safe_integral.mk (static_cast .uint8 val) false

/-- The overload `to_u16_unsafe(safe_integral<T> const &val)`:
`return safe_uint16{static_cast<bsl::uint16>(val.get())};`. -/
def to_u16_unsafe_safe {F : IntType} (val : safe_integral F) : safe_integral .uint16 :=
  safe_integral.mk (static_cast .uint16 val.get) false

/-- The overload `to_u16_unsafe(T const val)` on a raw value:
`return safe_uint16{static_cast<bsl::uint16>(val)};`. -/
def to_u16_unsafe (val : Int) : safe_integral .uint16 :=
  safe_integral.mk (static_cast .uint16 val) false

/-- The overload `to_u32_unsafe(safe_integral<T> const &val)`:
`return safe_uint32{static_cast<bsl::uint32>(val.get())};`. -/
def to_u32_unsafe_safe {F : IntType} (val : safe_integral F) : safe_integral .uint32 :=
  safe_integral.mk (static_cast .uint32 val.get) false

/-- The overload `to_u32_unsafe(T const val)` on a raw value:
`return safe_uint32{static_cast<bsl::uint32>(val)};`. -/
def to_u32_unsafe (val : Int) : safe_integral .uint32 :=
  safe_integral.mk (static_cast .uint32 val) false

/-- The overload `to_u64_unsafe(safe_integral<T> const &val)`:
`return safe_uint64{static_cast<bsl::uint64>(val.get())};`. -/
def to_u64_unsafe_safe {F : IntType} (val : safe_integral F) : safe_integral .uint64 :=
  safe_integral.mk (static_cast .uint64 val.get) false

/-- The overload `to_u64_unsafe(T const val)` on a raw value:
`return safe_uint64{static_cast<bsl::uint64>(val)};`. -/
def to_u64_unsafe (val : Int) : safe_integral .uint64 :=
  safe_integral.mk (static_cast .uint64 val) false

/-- The overload `to_umax_unsafe(safe_integral<T> const &val)`:
`return safe_uintmax{static_cast<bsl::uintmax>(val.get())};`. -/
def to_umax_unsafe_safe {F : IntType} (val : safe_integral F) : safe_integral .uintmax :=
  safe_integral.mk (static_cast .uintmax val.get) false

/-- The overload `to_umax_unsafe(T const val)` on a raw value:
`return safe_uintmax{static_cast<bsl::uintmax>(val)};`. -/
def to_umax_unsafe (val : Int) : safe_integral .uintmax :=
  safe_integral.mk (static_cast .uintmax val) false

/-! Text and literal parsing.  `string_view.hpp` and `from_chars.hpp` are not
among the sources; a text is the list of its characters. -/

/-- Modelled from the spec: `bsl::npos` of `npos.hpp` (not among the sources),
the largest `uintmax`, as the tests of `substr` use it. -/
def npos : safe_integral .uintmax := safe_integral.mk (numeric_limits_max .uintmax) false

/-- Modelled from the spec: `basic_string_view::starts_with` of `string_view.hpp`
(not among the sources): the view begins with the given characters. -/
def starts_with (view : List Char) (str : List Char) : Bool :=
  str.isPrefixOf view

/-- Modelled from the spec: `basic_string_view::substr(pos, count)` of
`string_view.hpp` (not among the sources), as its tests show it: the characters
from position `pos` on, at most `count` of them, none when `pos` is past the
end. -/
def substr (view : List Char) (pos count : safe_integral .uintmax) : List Char :=
  (view.drop pos.get.toNat).take count.get.toNat

/-- Modelled from the spec: the value of a character as a digit of the base:
`0`-`9` in both bases, `a`-`f` and `A`-`F` in base 16 only. -/
def digit_value (base : Int) (c : Char) : Option Int :=
  if '0' ≤ c ∧ c ≤ '9' then some ((c.toNat : Int) - ('0'.toNat : Int))
  else if base = 16 ∧ 'a' ≤ c ∧ c ≤ 'f' then some ((c.toNat : Int) - ('a'.toNat : Int) + 10)
  else if base = 16 ∧ 'A' ≤ c ∧ c ≤ 'F' then some ((c.toNat : Int) - ('A'.toNat : Int) + 10)
  else none

/-- Modelled from the spec: the "digit-by-digit accumulation (itself
overflow-checked)" of `from_chars.hpp` (not among the sources).  `acc` is the
value read so far; each digit multiplies it by the base and adds the digit
(subtracts it after a leading `-`); a step whose result is not a value of `T`,
or a character that is not a digit of the base, ends in `failure()`. -/
def from_chars_accumulate (T : IntType) (base : Int) (negative : Bool) :
    List Char → Int → safe_integral T
  | [], acc => safe_integral.mk acc false
  | c :: cs, acc =>
    match digit_value base c with
    | none => safe_integral.failure T
    | some d =>
      if is_value T (if negative then acc * base - d else acc * base + d) then
        from_chars_accumulate T base negative cs
          (if negative then acc * base - d else acc * base + d)
      else
        safe_integral.failure T

/-- Modelled from the spec: `from_chars<T>(str, base)` of `from_chars.hpp` (not
among the sources), the "numeric-parsing routine": "plain decimal digit
sequences, optionally leading `-`" in base 10 and hexadecimal digit sequences
in base 16.  What the spec leaves unsaid is resolved to `failure()`: an
invalid base, a base other than 10 and 16, a text without digits. -/
def from_chars (T : IntType) (str : List Char) (base : safe_integral .int32) :
    safe_integral T :=
  if base.invalid then safe_integral.failure T
  else if base.get = 10 then
    match str with
    | [] => safe_integral.failure T
    | c :: cs =>
      if c = '-' ∧ is_signed T = true then
        if cs.isEmpty then safe_integral.failure T
        else from_chars_accumulate T 10 true cs 0
      else from_chars_accumulate T 10 false (c :: cs) 0
  else if base.get = 16 then
    if str.isEmpty then safe_integral.failure T
    else from_chars_accumulate T 16 false str 0
  else safe_integral.failure T

/-- The body shared by the unsigned literal operators `operator""_u8`, ...,
`operator""_umax` of `convert.hpp`, lines 868-972, for the destination `T`. -/
def unsigned_literal (P : Platform) (T : IntType) (str : List Char) : safe_integral T :=
  let offset := to_umax P .int32 2
  let base10 := to_i32 P .int32 10
  let base16 := to_i32 P .int32 16
  let view : List Char := str
  if starts_with view "0x".toList then
    from_chars T (substr view offset npos) base16
  else
    from_chars T view base10

/-- The literal operator `operator""_u8`, `convert.hpp` lines 868-881. -/
def operator_u8 (P : Platform) (str : List Char) : safe_integral .uint8 :=
  unsigned_literal P .uint8 str

/-- The literal operator `operator""_u16`, `convert.hpp` lines 890-903. -/
def operator_u16 (P : Platform) (str : List Char) : safe_integral .uint16 :=
  unsigned_literal P .uint16 str

/-- The literal operator `operator""_u32`, `convert.hpp` lines 913-926. -/
def operator_u32 (P : Platform) (str : List Char) : safe_integral .uint32 :=
  unsigned_literal P .uint32 str

/-- The literal operator `operator""_u64`, `convert.hpp` lines 936-949. -/
def operator_u64 (P : Platform) (str : List Char) : safe_integral .uint64 :=
  unsigned_literal P .uint64 str

/-- The literal operator `operator""_umax`, `convert.hpp` lines 959-972. -/
def operator_umax (P : Platform) (str : List Char) : safe_integral .uintmax :=
  unsigned_literal P .uintmax str

/-! Bitwise operators of `safe_integral` and the upper/lower merge,
`convert.hpp` lines 1102-1201. -/

/-- The bit pattern of a value of `T`: its two's complement representation on
`width T` bits, as a natural number. -/
def bit_pattern (T : IntType) (v : Int) : Nat :=
  (v % (2 : Int) ^ width T).toNat

/-- Modelled from the spec: `operator&` on two `safe_integral<T>` of
`safe_integral.hpp` (not among the sources): it "computes the raw result" and
"returns a new SafeIntegral<T> that is poisoned if either operand was
poisoned"; a bitwise operation has no error condition of its own. -/
def operator_and {T : IntType} (lhs rhs : safe_integral T) : safe_integral T :=
  safe_integral.mk
    (static_cast T ((bit_pattern T lhs.value &&& bit_pattern T rhs.value : Nat) : Int))
    (lhs.poisoned || rhs.poisoned)

/-- Modelled from the spec: `operator|` on two `safe_integral<T>` of
`safe_integral.hpp` (not among the sources): it "computes the raw result" and
"returns a new SafeIntegral<T> that is poisoned if either operand was
poisoned"; a bitwise operation has no error condition of its own. -/
def operator_or {T : IntType} (lhs rhs : safe_integral T) : safe_integral T :=
  safe_integral.mk
    (static_cast T ((bit_pattern T lhs.value ||| bit_pattern T rhs.value : Nat) : Int))
    (lhs.poisoned || rhs.poisoned)

/-- Modelled from the spec: `is_unsigned<T>` of `is_unsigned.hpp` (not among the
sources), the constraint `enable_if_t<is_unsigned<T>::value, bool>` under which
the overloads of `to_umax_upper_lower` exist. -/
def is_unsigned (T : IntType) : Bool := !is_signed T

/-- The overload
`to_umax_upper_lower(safe_uintmax const &upper, safe_integral<T> const &lower)`
of `convert.hpp`, lines 1116-1142.  The masks are the literals of the source,
read by `operator""_umax`; `return lower;` hands back the fields of `lower` as a
`safe_uintmax`.  The body is given for every `T`; the source only instantiates
it for `is_unsigned T`. -/
def to_umax_upper_lower (P : Platform) {T : IntType}
    (upper : safe_integral .uintmax) (lower : safe_integral T) : safe_integral .uintmax :=
  if is_same P T .uint8 then
    let mask := operator_umax P "0xFFFFFFFFFFFFFF00".toList
    operator_or (operator_and upper mask) (to_umax_safe P lower)
  else if is_same P T .uint16 then
    let mask := operator_umax P "0xFFFFFFFFFFFF0000".toList
    operator_or (operator_and upper mask) (to_umax_safe P lower)
  else if is_same P T .uint32 then
    let mask := operator_umax P "0xFFFFFFFF00000000".toList
    operator_or (operator_and upper mask) (to_umax_safe P lower)
  else if is_same P T .uint64 then
    safe_integral.mk lower.value lower.poisoned
  else
    safe_integral.failure .uintmax

/-- The overload
`to_umax_upper_lower(bsl::uintmax const upper, safe_integral<T> const &lower)`,
lines 1156-1162: `to_umax_upper_lower(safe_uintmax{upper}, lower)`. -/
def to_umax_upper_lower_raw_safe (P : Platform) {T : IntType}
    (upper : Int) (lower : safe_integral T) : safe_integral .uintmax :=
  to_umax_upper_lower P (safe_integral.mk upper false) lower

/-- The overload `to_umax_upper_lower(safe_uintmax const &upper, T const lower)`,
lines 1176-1181: `to_umax_upper_lower(upper, safe_integral<T>{lower})`. -/
def to_umax_upper_lower_safe_raw (P : Platform) (T : IntType)
    (upper : safe_integral .uintmax) (lower : Int) : safe_integral .uintmax :=
  to_umax_upper_lower P upper (safe_integral.mk lower false : safe_integral T)

/-- The overload `to_umax_upper_lower(bsl::uintmax const upper, T const lower)`,
lines 1195-1200:
`to_umax_upper_lower(safe_uintmax{upper}, safe_integral<T>{lower})`. -/
def to_umax_upper_lower_raw_raw (P : Platform) (T : IntType)
    (upper : Int) (lower : Int) : safe_integral .uintmax :=
  to_umax_upper_lower P (safe_integral.mk upper false)
    (safe_integral.mk lower false : safe_integral T)

/-- Modelled from the spec: `safe_integral<T>::min()`, "the true min of T", valid. -/
def safe_integral.min (T : IntType) : safe_integral T :=
  safe_integral.mk (numeric_limits_min T) false

/-- Modelled from the spec: `safe_integral<T>::max()`, "the true max of T", valid. -/
def safe_integral.max (T : IntType) : safe_integral T :=
  safe_integral.mk (numeric_limits_max T) false

/-- A text consisting of decimal digits: at least one character, each of them
between `0` and `9`. -/
def is_decimal_text (str : List Char) : Prop :=
  str ≠ [] ∧ ∀ c ∈ str, '0' ≤ c ∧ c ≤ '9'

instance (str : List Char) : Decidable (is_decimal_text str) :=
  inferInstanceAs (Decidable (_ ∧ _))

/-- The integer that a text of decimal digits denotes, most significant digit
first: the usual positional value, independent of any destination type. -/
def decimal_value (str : List Char) : Int :=
  str.foldl (fun n c => n * 10 + ((c.toNat : Int) - ('0'.toNat : Int))) 0

/-! The signed literal operators, `convert.hpp` lines 981-1037, and the
denotation of hexadecimal texts. -/

/-- The body shared by the signed literal operators `operator""_i8`, ...,
`operator""_imax` of `convert.hpp`, lines 981-1037, for the destination `T`:
`return bsl::from_chars<T>(str, base10);`. -/
def signed_literal (P : Platform) (T : IntType) (str : List Char) : safe_integral T :=
  let base10 := to_i32 P .int32 10
  from_chars T str base10

/-- The literal operator `operator""_i8`, `convert.hpp` lines 981-985. -/
def operator_i8 (P : Platform) (str : List Char) : safe_integral .int8 :=
  signed_literal P .int8 str

/-- The literal operator `operator""_i16`, `convert.hpp` lines 994-998. -/
def operator_i16 (P : Platform) (str : List Char) : safe_integral .int16 :=
  signed_literal P .int16 str

/-- The literal operator `operator""_i32`, `convert.hpp` lines 1007-1011. -/
def operator_i32 (P : Platform) (str : List Char) : safe_integral .int32 :=
  signed_literal P .int32 str

/-- The literal operator `operator""_i64`, `convert.hpp` lines 1020-1024. -/
def operator_i64 (P : Platform) (str : List Char) : safe_integral .int64 :=
  signed_literal P .int64 str

/-- The literal operator `operator""_imax`, `convert.hpp` lines 1033-1037. -/
def operator_imax (P : Platform) (str : List Char) : safe_integral .intmax :=
  signed_literal P .intmax str

/-- A hexadecimal digit: `0`-`9`, `a`-`f` or `A`-`F`. -/
def is_hex_digit (c : Char) : Prop :=
  ('0' ≤ c ∧ c ≤ '9') ∨ ('a' ≤ c ∧ c ≤ 'f') ∨ ('A' ≤ c ∧ c ≤ 'F')

instance (c : Char) : Decidable (is_hex_digit c) :=
  inferInstanceAs (Decidable (_ ∨ _))

/-- A text consisting of hexadecimal digits: at least one character, each of
them a hexadecimal digit. -/
def is_hex_text (str : List Char) : Prop :=
  str ≠ [] ∧ ∀ c ∈ str, is_hex_digit c

instance (str : List Char) : Decidable (is_hex_text str) :=
  inferInstanceAs (Decidable (_ ∧ _))

/-- The number a hexadecimal digit stands for. -/
def hex_digit (c : Char) : Int :=
  if c ≤ '9' then (c.toNat : Int) - ('0'.toNat : Int)
  else if c ≤ 'F' then (c.toNat : Int) - ('A'.toNat : Int) + 10
  else (c.toNat : Int) - ('a'.toNat : Int) + 10

/-- The integer that a text of hexadecimal digits denotes, most significant
digit first, independent of any destination type. -/
def hex_value (str : List Char) : Int :=
  str.foldl (fun n c => n * 16 + hex_digit c) 0

/-! Arithmetic, shift and unary operators of `safe_integral`;
`safe_integral.hpp` is not among the sources. -/

/-- Modelled from the spec: how every arithmetic operator of `safe_integral<T>`
builds its result from the raw mathematical result: "poisoned if either operand
was poisoned, OR the operation is undefined for the operand values, OR the
computed mathematical result does not fit in T's range"; an error condition
"deterministically substitutes a safe sentinel value", taken to be the 0 of
`failure()`. -/
def checked_result (T : IntType) (operand_poisoned undefined : Bool) (raw : Int) :
    safe_integral T :=
  if undefined then safe_integral.failure T
  else if is_value T raw then safe_integral.mk raw operand_poisoned
  else safe_integral.failure T

/-- Modelled from the spec: `operator+` of `safe_integral<T>`, overflow-checked. -/
def operator_add {T : IntType} (lhs rhs : safe_integral T) : safe_integral T :=
  checked_result T (lhs.poisoned || rhs.poisoned) false (lhs.value + rhs.value)

/-- Modelled from the spec: binary `operator-` of `safe_integral<T>`,
overflow-checked. -/
def operator_sub {T : IntType} (lhs rhs : safe_integral T) : safe_integral T :=
  checked_result T (lhs.poisoned || rhs.poisoned) false (lhs.value - rhs.value)

/-- Modelled from the spec: `operator*` of `safe_integral<T>`, overflow-checked. -/
def operator_mul {T : IntType} (lhs rhs : safe_integral T) : safe_integral T :=
  checked_result T (lhs.poisoned || rhs.poisoned) false (lhs.value * rhs.value)

/-- Modelled from the spec: `operator/` of `safe_integral<T>`: "division by
zero" is an error condition, and so is a quotient that does not fit (the signed
minimum divided by -1); the quotient is the C++ one, truncated toward zero. -/
def operator_div {T : IntType} (lhs rhs : safe_integral T) : safe_integral T :=
  checked_result T (lhs.poisoned || rhs.poisoned) (rhs.value == 0)
    (Int.tdiv lhs.value rhs.value)

/-- Modelled from the spec: `operator%` of `safe_integral<T>`: "modulo by zero"
is an error condition; the remainder is the C++ one, with the sign of the
dividend. -/
def operator_mod {T : IntType} (lhs rhs : safe_integral T) : safe_integral T :=
  checked_result T (lhs.poisoned || rhs.poisoned) (rhs.value == 0)
    (Int.tmod lhs.value rhs.value)

/-- Modelled from the spec: `operator^` on two `safe_integral<T>`: the raw
bitwise result, "poisoned if either operand was poisoned". -/
def operator_xor {T : IntType} (lhs rhs : safe_integral T) : safe_integral T :=
  safe_integral.mk
    (static_cast T ((bit_pattern T lhs.value ^^^ bit_pattern T rhs.value : Nat) : Int))
    (lhs.poisoned || rhs.poisoned)

/-- Modelled from the spec: `operator<<` of `safe_integral<T>`: a "shift-amount
out of `[0, bit_width)`" is an error condition; otherwise the bit pattern is
shifted and the bits that leave the width are dropped. -/
def operator_shl {T : IntType} (lhs rhs : safe_integral T) : safe_integral T :=
  if rhs.value < 0 ∨ (width T : Int) ≤ rhs.value then safe_integral.failure T
  else
    safe_integral.mk
      (static_cast T ((bit_pattern T lhs.value <<< rhs.value.toNat : Nat) : Int))
      (lhs.poisoned || rhs.poisoned)

/-- Modelled from the spec: `operator>>` of `safe_integral<T>`: a "shift-amount
out of `[0, bit_width)`" is an error condition; otherwise the bit pattern is
shifted right. -/
def operator_shr {T : IntType} (lhs rhs : safe_integral T) : safe_integral T :=
  if rhs.value < 0 ∨ (width T : Int) ≤ rhs.value then safe_integral.failure T
  else
    safe_integral.mk
      (static_cast T ((bit_pattern T lhs.value >>> rhs.value.toNat : Nat) : Int))
      (lhs.poisoned || rhs.poisoned)

/-- Modelled from the spec: unary `operator-` of `safe_integral<T>`: "negation of
the minimum signed value" is an error condition, as is any negation whose
result is not a value of `T`. -/
def operator_neg {T : IntType} (val : safe_integral T) : safe_integral T :=
  checked_result T val.poisoned false (-val.value)

/-- Modelled from the spec: `operator~` of `safe_integral<T>`: every bit of the
pattern is inverted; there is no error condition beyond a poisoned operand. -/
def operator_not {T : IntType} (val : safe_integral T) : safe_integral T :=
  safe_integral.mk (static_cast T (-val.value - 1)) val.poisoned

/-! The constraint on `to_umax_upper_lower`, the casts inside `convert`, and
constant evaluation. -/

/-- The call `to_umax_upper_lower(upper, lower)` as a caller meets it: each of
the four overloads is declared with `enable_if_t<is_unsigned<T>::value, bool>`,
so for a lower type that is not unsigned no overload exists and the call is
rejected by the compiler (`none`); otherwise the body runs. -/
def to_umax_upper_lower_overload (P : Platform) {T : IntType}
    (upper : safe_integral .uintmax) (lower : safe_integral T) :
    Option (safe_integral .uintmax) :=
  if is_unsigned T then some (to_umax_upper_lower P upper lower) else none

/-- What `convert` casts to `intmax` or to `uintmax` before a comparison: the
argument `val`, the literal 0, `t_limits::max()`, `t_limits::min()` and
`f_limits::max()`. -/
inductive CastOperand where
  | val | zero | t_max | t_min | f_max
  deriving DecidableEq, Repr

/-- The mathematical value of an operand before it is cast. -/
def CastOperand.value (T F : IntType) (val : Int) : CastOperand → Int
  | .val => val
  | .zero => 0
  | .t_max => numeric_limits_max T
  | .t_min => numeric_limits_min T
  | .f_max => numeric_limits_max F

/-- The casts that initialise the `constexpr` limits of the branch of `convert`
chosen by the signedness of `F` and `T`: lines 92-94, 117-118, 143-144, 162-163.
They are evaluated when the function is instantiated. -/
def convert_constants (T F : IntType) : List (IntType × CastOperand) :=
  if is_signed F then
    if is_signed T then
      [(.intmax, .t_max), (.intmax, .t_min), (.intmax, .f_max)]
    else
      [(.uintmax, .t_max), (.uintmax, .f_max)]
  else
    [(.uintmax, .t_max), (.uintmax, .f_max)]

/-- The raw overload of `convert`, lines 79-181, once more, each return paired
with the casts to `intmax` / `uintmax` evaluated on the way to it, as (target
type, operand): the limits of the branch, then the casts of the run-time
comparisons in the order they are reached. -/
def convert_traced (P : Platform) (T F : IntType) (val : Int) :
    safe_integral T × List (IntType × CastOperand) :=
  if is_same P F T then
    (safe_integral.mk (static_cast T val) false, convert_constants T F)
  else if is_signed F then
    if is_signed T then
      let t_max : Int := static_cast .intmax (numeric_limits_max T)
      let t_min : Int := static_cast .intmax (numeric_limits_min T)
      let f_max : Int := static_cast .intmax (numeric_limits_max F)
      if f_max < t_max then
        (safe_integral.mk (static_cast T val) false, convert_constants T F)
      else if f_max = t_max then
        (safe_integral.mk (static_cast T val) false, convert_constants T F)
      else
        if static_cast .intmax val > t_max then
          (safe_integral.failure T, convert_constants T F ++ [(.intmax, .val)])
        else if static_cast .intmax val < t_min then
          (safe_integral.failure T,
            convert_constants T F ++ [(.intmax, .val), (.intmax, .val)])
        else
          (safe_integral.mk (static_cast T val) false,
            convert_constants T F ++ [(.intmax, .val), (.intmax, .val)])
    else
      let t_max : Int := static_cast .uintmax (numeric_limits_max T)
      let f_max : Int := static_cast .uintmax (numeric_limits_max F)
      if static_cast .intmax val < static_cast .intmax 0 then
        (safe_integral.failure T,
          convert_constants T F ++ [(.intmax, .val), (.intmax, .zero)])
      else if f_max < t_max then
        (safe_integral.mk (static_cast T val) false,
          convert_constants T F ++ [(.intmax, .val), (.intmax, .zero)])
      else if f_max = t_max then
        (safe_integral.mk (static_cast T val) false,
          convert_constants T F ++ [(.intmax, .val), (.intmax, .zero)])
      else
        if static_cast .uintmax val > t_max then
          (safe_integral.failure T,
            convert_constants T F ++ [(.intmax, .val), (.intmax, .zero), (.uintmax, .val)])
        else
          (safe_integral.mk (static_cast T val) false,
            convert_constants T F ++ [(.intmax, .val), (.intmax, .zero), (.uintmax, .val)])
  else
    if is_signed T then
      let t_max : Int := static_cast .uintmax (numeric_limits_max T)
      let f_max : Int := static_cast .uintmax (numeric_limits_max F)
      if f_max < t_max then
        (safe_integral.mk (static_cast T val) false, convert_constants T F)
      else if f_max = t_max then
        (safe_integral.mk (static_cast T val) false, convert_constants T F)
      else
        if static_cast .uintmax val > t_max then
          (safe_integral.failure T, convert_constants T F ++ [(.uintmax, .val)])
        else
          (safe_integral.mk (static_cast T val) false,
            convert_constants T F ++ [(.uintmax, .val)])
    else
      let t_max : Int := static_cast .uintmax (numeric_limits_max T)
      let f_max : Int := static_cast .uintmax (numeric_limits_max F)
      if f_max < t_max then
        (safe_integral.mk (static_cast T val) false, convert_constants T F)
      else if f_max = t_max then
        (safe_integral.mk (static_cast T val) false, convert_constants T F)
      else
        if static_cast .uintmax val > t_max then
          (safe_integral.failure T, convert_constants T F ++ [(.uintmax, .val)])
        else
          (safe_integral.mk (static_cast T val) false,
            convert_constants T F ++ [(.uintmax, .val)])

/-- The function `conversion_failure_narrowing_results_in_loss_of_data()`,
`convert.hpp` lines 48-50: an empty function that is not `constexpr`, "used to
signal to the user during compile-time that a conversion error occurred".  At
run time the call returns; during constant evaluation a call to it is not a
constant expression and the evaluation is rejected (`none`). -/
def conversion_failure_narrowing_results_in_loss_of_data (constant_evaluated : Bool) :
    Option Unit :=
  if constant_evaluated then none else some ()

/-- The function `conversion_failure_bit_masks_on_signed_integral()`,
`convert.hpp` lines 56-58: an empty function that is not `constexpr`; at run
time the call returns, during constant evaluation it is rejected (`none`). -/
def conversion_failure_bit_masks_on_signed_integral (constant_evaluated : Bool) :
    Option Unit :=
  if constant_evaluated then none else some ()

/-- The raw overload of `convert`, lines 79-181, evaluated at run time
(`constant_evaluated = false`) or in a constant-evaluated context (`true`), the
calls to `conversion_failure_narrowing_results_in_loss_of_data()` kept where the
source has them; `none` is an evaluation the compiler rejects. -/
def convert_evaluated (constant_evaluated : Bool) (P : Platform) (T F : IntType) (val : Int) :
    Option (safe_integral T) :=
  if is_same P F T then
    some (safe_integral.mk (static_cast T val) false)
  else if is_signed F then
    if is_signed T then
      let t_max : Int := static_cast .intmax (numeric_limits_max T)
      let t_min : Int := static_cast .intmax (numeric_limits_min T)
      let f_max : Int := static_cast .intmax (numeric_limits_max F)
      if f_max < t_max then
        some (safe_integral.mk (static_cast T val) false)
      else if f_max = t_max then
        some (safe_integral.mk (static_cast T val) false)
      else
        if static_cast .intmax val > t_max then
          (conversion_failure_narrowing_results_in_loss_of_data constant_evaluated).bind
            fun _ => some (safe_integral.failure T)
        else if static_cast .intmax val < t_min then
          (conversion_failure_narrowing_results_in_loss_of_data constant_evaluated).bind
            fun _ => some (safe_integral.failure T)
        else
          some (safe_integral.mk (static_cast T val) false)
    else
      let t_max : Int := static_cast .uintmax (numeric_limits_max T)
      let f_max : Int := static_cast .uintmax (numeric_limits_max F)
      if static_cast .intmax val < static_cast .intmax 0 then
        (conversion_failure_narrowing_results_in_loss_of_data constant_evaluated).bind
          fun _ => some (safe_integral.failure T)
      else if f_max < t_max then
        some (safe_integral.mk (static_cast T val) false)
      else if f_max = t_max then
        some (safe_integral.mk (static_cast T val) false)
      else
        if static_cast .uintmax val > t_max then
          (conversion_failure_narrowing_results_in_loss_of_data constant_evaluated).bind
            fun _ => some (safe_integral.failure T)
        else
          some (safe_integral.mk (static_cast T val) false)
  else
    if is_signed T then
      let t_max : Int := static_cast .uintmax (numeric_limits_max T)
      let f_max : Int := static_cast .uintmax (numeric_limits_max F)
      if f_max < t_max then
        some (safe_integral.mk (static_cast T val) false)
      else if f_max = t_max then
        some (safe_integral.mk (static_cast T val) false)
      else
        if static_cast .uintmax val > t_max then
          (conversion_failure_narrowing_results_in_loss_of_data constant_evaluated).bind
            fun _ => some (safe_integral.failure T)
        else
          some (safe_integral.mk (static_cast T val) false)
    else
      let t_max : Int := static_cast .uintmax (numeric_limits_max T)
      let f_max : Int := static_cast .uintmax (numeric_limits_max F)
      if f_max < t_max then
        some (safe_integral.mk (static_cast T val) false)
      else if f_max = t_max then
        some (safe_integral.mk (static_cast T val) false)
      else
        if static_cast .uintmax val > t_max then
          (conversion_failure_narrowing_results_in_loss_of_data constant_evaluated).bind
            fun _ => some (safe_integral.failure T)
        else
          some (safe_integral.mk (static_cast T val) false)

/-- The `safe_integral` overload of `convert`, lines 202-211, evaluated at run
time or in a constant-evaluated context: the poisoned source returns `failure()`
without calling anything. -/
def convert_safe_evaluated (constant_evaluated : Bool) (P : Platform) (T F : IntType)
    (val : safe_integral F) : Option (safe_integral T) :=
  if val.invalid then
    some (safe_integral.failure T)
  else
    convert_evaluated constant_evaluated P T F val.get

/-- The overload of `to_umax_upper_lower` on two `safe_integral`, lines 1116-1142,
evaluated at run time or in a constant-evaluated context, the call to
`conversion_failure_bit_masks_on_signed_integral()` kept where the source has
it. -/
def to_umax_upper_lower_evaluated (constant_evaluated : Bool) (P : Platform) {T : IntType}
    (upper : safe_integral .uintmax) (lower : safe_integral T) :
    Option (safe_integral .uintmax) :=
  if is_same P T .uint8 then
    let mask := operator_umax P "0xFFFFFFFFFFFFFF00".toList
    (convert_safe_evaluated constant_evaluated P .uintmax T lower).bind
      fun low => some (operator_or (operator_and upper mask) low)
  else if is_same P T .uint16 then
    let mask := operator_umax P "0xFFFFFFFFFFFF0000".toList
    (convert_safe_evaluated constant_evaluated P .uintmax T lower).bind
      fun low => some (operator_or (operator_and upper mask) low)
  else if is_same P T .uint32 then
    let mask := operator_umax P "0xFFFFFFFF00000000".toList
    (convert_safe_evaluated constant_evaluated P .uintmax T lower).bind
      fun low => some (operator_or (operator_and upper mask) low)
  else if is_same P T .uint64 then
    some (safe_integral.mk lower.value lower.poisoned)
  else
    (conversion_failure_bit_masks_on_signed_integral constant_evaluated).bind
      fun _ => some (safe_integral.failure .uintmax)

/-! Auxiliary facts on the limits, the casts and the two overloads. -/

/-- A cast to `T` leaves a value of `T` unchanged. -/
theorem static_cast_eq_self (T : IntType) (v : Int) (h : is_value T v) : static_cast T v = v := by
  cases T <;> simp only [is_value, numeric_limits_min, numeric_limits_max] at h <;>
    simp only [static_cast, numeric_limits_min, width] <;> norm_num <;> omega

/-- A cast to `T` always lands in the range of `T`. -/
theorem static_cast_is_value (T : IntType) (v : Int) : is_value T (static_cast T v) := by
  cases T <;> simp only [is_value, numeric_limits_min, numeric_limits_max, static_cast, width] <;>
    norm_num <;> omega

/-- Two names of the same type have the same limits. -/
theorem is_same_limits (P : Platform) (F T : IntType) (h : is_same P F T = true) :
    numeric_limits_min F = numeric_limits_min T ∧ numeric_limits_max F = numeric_limits_max T := by
  obtain ⟨b⟩ := P
  cases b <;> cases F <;> cases T <;>
    first
      | exact ⟨rfl, rfl⟩
      | exact absurd h (by decide)

/-- Two's complement: the minimum of a signed type is `-max - 1`. -/
theorem signed_min_eq (T : IntType) (h : is_signed T = true) :
    numeric_limits_min T = -numeric_limits_max T - 1 := by
  cases T <;> first | rfl | exact absurd h (by decide)

/-- The minimum of an unsigned type is zero. -/
theorem unsigned_min_eq (T : IntType) (h : is_signed T = false) :
    numeric_limits_min T = 0 := by
  cases T <;> first | rfl | exact absurd h (by decide)

/-- Every maximum is positive. -/
theorem max_pos (T : IntType) : 0 < numeric_limits_max T := by
  cases T <;> decide

/-- Every signed maximum fits `intmax`. -/
theorem signed_max_le (T : IntType) (h : is_signed T = true) :
    numeric_limits_max T ≤ 9223372036854775807 := by
  cases T <;> first | decide | exact absurd h (by decide)

/-- Every maximum fits `uintmax`. -/
theorem max_le (T : IntType) : numeric_limits_max T ≤ 18446744073709551615 := by
  cases T <;> decide

/-- The cast to `intmax` preserves every integer of the 64-bit signed range. -/
theorem static_cast_intmax_eq (v : Int) (h₁ : -9223372036854775808 ≤ v)
    (h₂ : v ≤ 9223372036854775807) : static_cast .intmax v = v :=
  static_cast_eq_self .intmax v ⟨h₁, h₂⟩

/-- The cast to `uintmax` preserves every integer of the 64-bit unsigned range. -/
theorem static_cast_uintmax_eq (v : Int) (h₁ : 0 ≤ v)
    (h₂ : v ≤ 18446744073709551615) : static_cast .uintmax v = v :=
  static_cast_eq_self .uintmax v ⟨h₁, h₂⟩

/-- Characterisation of the raw overload on values of `F`: the result is the
value itself, valid, when `T` can represent it, and `failure()` otherwise. -/
theorem convert_eq (P : Platform) (T F : IntType) (v : Int) (h : is_value F v) :
    convert P T F v =
      if is_value T v then safe_integral.mk v false else safe_integral.failure T := by
  have hFp := max_pos F
  have hTp := max_pos T
  have hFu := max_le F
  have hTu := max_le T
  have hv := h
  obtain ⟨hv₁, hv₂⟩ := hv
  unfold convert
  by_cases hs : is_same P F T = true
  · obtain ⟨e₁, e₂⟩ := is_same_limits P F T hs
    have hT : is_value T v := ⟨e₁ ▸ hv₁, e₂ ▸ hv₂⟩
    rw [if_pos hs, if_pos hT, static_cast_eq_self T v hT]
  · rw [if_neg hs]
    cases hF : is_signed F <;> cases hT : is_signed T <;>
      simp only [Bool.false_eq_true, if_true, if_false, gt_iff_lt]
    · -- unsigned to unsigned
      have mF := unsigned_min_eq F hF
      have mT := unsigned_min_eq T hT
      have c₁ := static_cast_uintmax_eq (numeric_limits_max T) (by omega) hTu
      have c₂ := static_cast_uintmax_eq (numeric_limits_max F) (by omega) hFu
      have c₃ := static_cast_uintmax_eq v (by omega) (by omega)
      rw [c₁, c₂, c₃]
      by_cases hr : is_value T v
      · rw [if_pos hr, static_cast_eq_self T v hr]
        obtain ⟨hr₁, hr₂⟩ := hr
        split_ifs <;> first | rfl | (exfalso; omega)
      · rw [if_neg hr]
        have hr' : ¬ (numeric_limits_min T ≤ v ∧ v ≤ numeric_limits_max T) := hr
        split_ifs <;> first | rfl | (exfalso; omega)
    · -- unsigned to signed
      have mF := unsigned_min_eq F hF
      have mT := signed_min_eq T hT
      have c₁ := static_cast_uintmax_eq (numeric_limits_max T) (by omega) hTu
      have c₂ := static_cast_uintmax_eq (numeric_limits_max F) (by omega) hFu
      have c₃ := static_cast_uintmax_eq v (by omega) (by omega)
      rw [c₁, c₂, c₃]
      by_cases hr : is_value T v
      · rw [if_pos hr, static_cast_eq_self T v hr]
        obtain ⟨hr₁, hr₂⟩ := hr
        split_ifs <;> first | rfl | (exfalso; omega)
      · rw [if_neg hr]
        have hr' : ¬ (numeric_limits_min T ≤ v ∧ v ≤ numeric_limits_max T) := hr
        split_ifs <;> first | rfl | (exfalso; omega)
    · -- signed to unsigned
      have mF := signed_min_eq F hF
      have mT := unsigned_min_eq T hT
      have sF := signed_max_le F hF
      have c₁ := static_cast_uintmax_eq (numeric_limits_max T) (by omega) hTu
      have c₂ := static_cast_uintmax_eq (numeric_limits_max F) (by omega) hFu
      have c₃ := static_cast_intmax_eq v (by omega) (by omega)
      have c₄ := static_cast_intmax_eq 0 (by omega) (by omega)
      rw [c₁, c₂, c₃, c₄]
      by_cases hn : v < 0
      · have hr : ¬ is_value T v := fun hr => by
          obtain ⟨hr₁, hr₂⟩ := hr
          omega
        rw [if_pos hn, if_neg hr]
      · have c₅ := static_cast_uintmax_eq v (by omega) (by omega)
        rw [if_neg hn, c₅]
        by_cases hr : is_value T v
        · rw [if_pos hr, static_cast_eq_self T v hr]
          obtain ⟨hr₁, hr₂⟩ := hr
          split_ifs <;> first | rfl | (exfalso; omega)
        · rw [if_neg hr]
          have hr' : ¬ (numeric_limits_min T ≤ v ∧ v ≤ numeric_limits_max T) := hr
          split_ifs <;> first | rfl | (exfalso; omega)
    · -- signed to signed
      have mF := signed_min_eq F hF
      have mT := signed_min_eq T hT
      have sF := signed_max_le F hF
      have sT := signed_max_le T hT
      have c₁ := static_cast_intmax_eq (numeric_limits_max T) (by omega) sT
      have c₂ := static_cast_intmax_eq (numeric_limits_min T) (by omega) (by omega)
      have c₃ := static_cast_intmax_eq (numeric_limits_max F) (by omega) sF
      have c₄ := static_cast_intmax_eq v (by omega) (by omega)
      rw [c₁, c₂, c₃, c₄]
      by_cases hr : is_value T v
      · rw [if_pos hr, static_cast_eq_self T v hr]
        obtain ⟨hr₁, hr₂⟩ := hr
        split_ifs <;> first | rfl | (exfalso; omega)
      · rw [if_neg hr]
        have hr' : ¬ (numeric_limits_min T ≤ v ∧ v ≤ numeric_limits_max T) := hr
        split_ifs <;> first | rfl | (exfalso; omega)

/-- Every path of the raw overload returns either the cast value, valid, or
`failure()`. -/
theorem convert_cases (P : Platform) (T F : IntType) (v : Int) :
    convert P T F v = safe_integral.mk (static_cast T v) false ∨
      convert P T F v = safe_integral.failure T := by
  unfold convert
  simp only []
  split_ifs <;> first | exact Or.inl rfl | exact Or.inr rfl

/-- A type is the same as itself on every platform. -/
theorem is_same_refl (P : Platform) (T : IntType) : is_same P T T = true := by
  simp [is_same]

/-- On a valid source the `safe_integral` overload is the raw overload on the
stored value. -/
theorem convert_safe_of_valid (P : Platform) (T F : IntType) (s : safe_integral F)
    (h : s.poisoned = false) : convert_safe P T F s = convert P T F s.value := by
  simp [convert_safe, safe_integral.invalid, safe_integral.get, h]

/-- On a poisoned source the `safe_integral` overload is `failure()`. -/
theorem convert_safe_of_poisoned (P : Platform) (T F : IntType) (s : safe_integral F)
    (h : s.poisoned = true) : convert_safe P T F s = safe_integral.failure T := by
  simp [convert_safe, safe_integral.invalid, h]

/-- A value of `F` that `T` can represent converts to itself, valid. -/
theorem convert_of_is_value (P : Platform) (T F : IntType) (v : Int)
    (hF : is_value F v) (hT : is_value T v) :
    convert P T F v = safe_integral.mk v false := by
  rw [convert_eq P T F v hF, if_pos hT]

/-- A value of `F` that `T` cannot represent converts to `failure()`. -/
theorem convert_of_not_is_value (P : Platform) (T F : IntType) (v : Int)
    (hF : is_value F v) (hT : ¬ is_value T v) :
    convert P T F v = safe_integral.failure T := by
  rw [convert_eq P T F v hF, if_neg hT]

/-- Being below the minimum or above the maximum of `T` is not being a value
of `T`. -/
theorem not_is_value_of_out (T : IntType) (v : Int)
    (h : v < numeric_limits_min T ∨ numeric_limits_max T < v) : ¬ is_value T v := by
  rintro ⟨h₁, h₂⟩
  omega

/-- The minimum of a type is at most its maximum. -/
theorem min_le_max (T : IntType) : numeric_limits_min T ≤ numeric_limits_max T := by
  cases T <;> decide

/-- Casting twice to the same type is casting once. -/
theorem static_cast_idem (T : IntType) (v : Int) :
    static_cast T (static_cast T v) = static_cast T v :=
  static_cast_eq_self T (static_cast T v) (static_cast_is_value T v)

/-- A cast to an unsigned type keeps the low `width T` bits: it is the
remainder modulo `2 ^ width T`. -/
theorem static_cast_unsigned (T : IntType) (v : Int) (h : is_signed T = false) :
    static_cast T v = v % (2 : Int) ^ width T := by
  have m := unsigned_min_eq T h
  simp [static_cast, m]

/-- Clearing the low `N` bits of a 64-bit pattern with the mask `2 ^ 64 - 2 ^ N`. -/
theorem and_high_mask (N u : Nat) (hN : N ≤ 64) (hu : u < 2 ^ 64) :
    u &&& (2 ^ 64 - 2 ^ N) = 2 ^ N * (u / 2 ^ N) := by
  have hm : 2 ^ 64 - 2 ^ N = 2 ^ N * (2 ^ (64 - N) - 1) := by
    have h64 : (2 : Nat) ^ 64 = 2 ^ N * 2 ^ (64 - N) := by
      rw [← Nat.pow_add]
      congr 1
      omega
    rw [Nat.mul_sub, Nat.mul_one, ← h64]
  apply Nat.eq_of_testBit_eq
  intro j
  rw [Nat.testBit_and, hm, Nat.testBit_mul_pow_two, Nat.testBit_mul_pow_two,
    Nat.testBit_two_pow_sub_one, ← Nat.shiftRight_eq_div_pow, Nat.testBit_shiftRight]
  by_cases hj : N ≤ j
  · have e : N + (j - N) = j := by omega
    rw [e]
    by_cases hj64 : j < 64
    · have : j - N < 64 - N := by omega
      simp [hj, this]
    · have hlt : u < 2 ^ j := Nat.lt_of_lt_of_le hu (Nat.pow_le_pow_right (by decide) (by omega))
      simp [Nat.testBit_lt_two_pow hlt]
  · simp [hj]

/-- Merging on natural numbers: the low `N` bits come from `l`, the rest from `u`. -/
theorem merge_nat (N u l : Nat) (hN : N ≤ 64) (hu : u < 2 ^ 64) (hl : l < 2 ^ N) :
    (u &&& (2 ^ 64 - 2 ^ N)) ||| l = 2 ^ N * (u / 2 ^ N) + l := by
  rw [and_high_mask N u hN hu, Nat.mul_add_lt_is_or hl]


/-- The bit pattern of a value of `uintmax` is the value itself. -/
theorem bit_pattern_uintmax (v : Int) (h : is_value .uintmax v) :
    bit_pattern .uintmax v = v.toNat := by
  obtain ⟨h₁, h₂⟩ := h
  simp only [numeric_limits_min, numeric_limits_max] at h₁ h₂
  unfold bit_pattern
  congr 1
  simp only [width]
  omega

/-- A natural number below `2 ^ 64` is a value of `uintmax`. -/
theorem is_value_uintmax_nat (n : Nat) (h : n < 2 ^ 64) : is_value .uintmax (n : Int) := by
  constructor
  · simp only [numeric_limits_min]
    omega
  · simp only [numeric_limits_max]
    omega

/-- Operator `&` on `safe_uintmax` operands holding values of `uintmax`. -/
theorem operator_and_uintmax (a b : safe_integral .uintmax)
    (ha : is_value .uintmax a.value) (hb : is_value .uintmax b.value) :
    operator_and a b =
      safe_integral.mk ((a.value.toNat &&& b.value.toNat : Nat) : Int)
        (a.poisoned || b.poisoned) := by
  have hb' : b.value.toNat < 2 ^ 64 := by
    obtain ⟨h₁, h₂⟩ := hb
    simp only [numeric_limits_min, numeric_limits_max] at h₁ h₂
    omega
  unfold operator_and
  rw [bit_pattern_uintmax _ ha, bit_pattern_uintmax _ hb,
    static_cast_eq_self _ _ (is_value_uintmax_nat _ (Nat.and_lt_two_pow _ hb'))]

/-- Operator `|` on `safe_uintmax` operands holding values of `uintmax`. -/
theorem operator_or_uintmax (a b : safe_integral .uintmax)
    (ha : is_value .uintmax a.value) (hb : is_value .uintmax b.value) :
    operator_or a b =
      safe_integral.mk ((a.value.toNat ||| b.value.toNat : Nat) : Int)
        (a.poisoned || b.poisoned) := by
  have ha' : a.value.toNat < 2 ^ 64 := by
    obtain ⟨h₁, h₂⟩ := ha
    simp only [numeric_limits_min, numeric_limits_max] at h₁ h₂
    omega
  have hb' : b.value.toNat < 2 ^ 64 := by
    obtain ⟨h₁, h₂⟩ := hb
    simp only [numeric_limits_min, numeric_limits_max] at h₁ h₂
    omega
  unfold operator_or
  rw [bit_pattern_uintmax _ ha, bit_pattern_uintmax _ hb,
    static_cast_eq_self _ _ (is_value_uintmax_nat _ (Nat.or_lt_two_pow ha' hb'))]

/-- The three masks of `to_umax_upper_lower`, as the literal operator reads them. -/
theorem mask_literals (P : Platform) :
    operator_umax P "0xFFFFFFFFFFFFFF00".toList = safe_integral.mk (2 ^ 64 - 2 ^ 8 : Nat) false ∧
    operator_umax P "0xFFFFFFFFFFFF0000".toList = safe_integral.mk (2 ^ 64 - 2 ^ 16 : Nat) false ∧
    operator_umax P "0xFFFFFFFF00000000".toList = safe_integral.mk (2 ^ 64 - 2 ^ 32 : Nat) false := by
  obtain ⟨b⟩ := P
  cases b <;> decide

/-- The masked merge `(upper & mask) | lower` on `safe_uintmax` operands, for the
mask `2 ^ 64 - 2 ^ N` and a `lower` below `2 ^ N`. -/
theorem masked_merge (N : Nat) (hN : N ≤ 64) (upper low : safe_integral .uintmax)
    (hu : is_value .uintmax upper.value) (hl₀ : 0 ≤ low.value) (hl : low.value < 2 ^ N) :
    operator_or (operator_and upper (safe_integral.mk (2 ^ 64 - 2 ^ N : Nat) false)) low =
      safe_integral.mk (2 ^ N * (upper.value / 2 ^ N) + low.value)
        (upper.poisoned || low.poisoned) ∧
    operator_or (operator_and upper (safe_integral.mk (2 ^ 64 - 2 ^ N : Nat) false)) low =
      safe_integral.mk
        (((upper.value.toNat &&& (2 ^ 64 - 2 ^ N)) ||| low.value.toNat : Nat) : Int)
        (upper.poisoned || low.poisoned) := by
  obtain ⟨hu₁, hu₂⟩ := hu
  simp only [numeric_limits_min, numeric_limits_max] at hu₁ hu₂
  have hu' : upper.value.toNat < 2 ^ 64 := by omega
  have hpow : (2 : Int) ^ N ≤ 2 ^ 64 := pow_le_pow_right₀ (by norm_num) hN
  have hl' : low.value.toNat < 2 ^ N := by
    have : ((low.value.toNat : Nat) : Int) < ((2 ^ N : Nat) : Int) := by
      rw [Int.toNat_of_nonneg hl₀]
      exact_mod_cast hl
    exact_mod_cast this
  have hmask : is_value .uintmax (((2 ^ 64 - 2 ^ N : Nat) : Nat) : Int) :=
    is_value_uintmax_nat _ (Nat.sub_lt (by norm_num) (Nat.two_pow_pos N))
  have hlow : is_value .uintmax low.value := by
    constructor
    · simpa only [numeric_limits_min] using hl₀
    · simp only [numeric_limits_max]
      norm_num at hpow
      omega
  have hand : operator_and upper (safe_integral.mk (2 ^ 64 - 2 ^ N : Nat) false) =
      safe_integral.mk ((upper.value.toNat &&& (2 ^ 64 - 2 ^ N) : Nat) : Int)
        upper.poisoned := by
    rw [operator_and_uintmax _ _ ⟨hu₁, hu₂⟩ hmask]
    simp
  have hav : is_value .uintmax
      (safe_integral.mk ((upper.value.toNat &&& (2 ^ 64 - 2 ^ N) : Nat) : Int)
        upper.poisoned : safe_integral .uintmax).value :=
    is_value_uintmax_nat _ (Nat.and_lt_two_pow _ (Nat.sub_lt (by norm_num) (Nat.two_pow_pos N)))
  have hor : operator_or (operator_and upper (safe_integral.mk (2 ^ 64 - 2 ^ N : Nat) false)) low =
      safe_integral.mk
        (((upper.value.toNat &&& (2 ^ 64 - 2 ^ N)) ||| low.value.toNat : Nat) : Int)
        (upper.poisoned || low.poisoned) := by
    rw [hand, operator_or_uintmax _ _ hav hlow]
    simp
  refine ⟨?_, hor⟩
  rw [hor, merge_nat N _ _ hN hu' hl']
  congr 1
  push_cast
  rw [Int.toNat_of_nonneg hu₁, Int.toNat_of_nonneg hl₀]


/-- For a lower operand of type `uint8`, `uint16` or `uint32` the merge is the
masked expression of the source with the mask `2 ^ 64 - 2 ^ width T`. -/
theorem to_umax_upper_lower_narrow (P : Platform) (T : IntType)
    (upper : safe_integral .uintmax) (lower : safe_integral T)
    (hT : T = .uint8 ∨ T = .uint16 ∨ T = .uint32) :
    to_umax_upper_lower P upper lower =
      operator_or (operator_and upper (safe_integral.mk (2 ^ 64 - 2 ^ width T : Nat) false))
        (to_umax_safe P lower) := by
  obtain ⟨m₈, m₁₆, m₃₂⟩ := mask_literals P
  obtain ⟨b⟩ := P
  rcases hT with rfl | rfl | rfl <;>
    simp only [to_umax_upper_lower, m₈, m₁₆, m₃₂, width] <;>
    cases b <;> simp [is_same]

/-- For a lower operand whose type is `uint64` the merge is `lower` itself. -/
theorem to_umax_upper_lower_full (P : Platform) (T : IntType)
    (upper : safe_integral .uintmax) (lower : safe_integral T)
    (hT : is_same P T .uint64 = true) :
    to_umax_upper_lower P upper lower = safe_integral.mk lower.value lower.poisoned := by
  obtain ⟨b⟩ := P
  cases b <;> cases T <;> first
    | exact absurd hT (by decide)
    | simp [to_umax_upper_lower, is_same]

/-- A `safe_integral` is valid exactly when it is not poisoned. -/
theorem poisoned_of_valid {T : IntType} (s : safe_integral T) (h : s.valid = true) :
    s.poisoned = false := by
  cases hp : s.poisoned
  · rfl
  · simp [safe_integral.valid, hp] at h

/-- Values of an unsigned type are values of `uintmax`. -/
theorem is_value_uintmax_of_unsigned (T : IntType) (v : Int) (hT : is_signed T = false)
    (h : is_value T v) : is_value .uintmax v := by
  have m := unsigned_min_eq T hT
  have u := max_le T
  obtain ⟨h₁, h₂⟩ := h
  constructor
  · simp only [numeric_limits_min]
    omega
  · simp only [numeric_limits_max]
    omega

/-- A decimal digit character has a digit value between 0 and 9. -/
theorem digit_bounds (c : Char) (h : '0' ≤ c ∧ c ≤ '9') :
    0 ≤ (c.toNat : Int) - ('0'.toNat : Int) ∧ (c.toNat : Int) - ('0'.toNat : Int) ≤ 9 := by
  obtain ⟨h₁, h₂⟩ := h
  have a : ('0' : Char).toNat ≤ c.toNat := h₁
  have b : c.toNat ≤ ('9' : Char).toNat := h₂
  have e0 : ('0' : Char).toNat = 48 := rfl
  have e9 : ('9' : Char).toNat = 57 := rfl
  omega

/-- In base 10 a decimal digit character is read as its digit value. -/
theorem digit_value_decimal (c : Char) (h : '0' ≤ c ∧ c ≤ '9') :
    digit_value 10 c = some ((c.toNat : Int) - ('0'.toNat : Int)) := by
  unfold digit_value
  rw [if_pos h]

/-- Reading further decimal digits never decreases a non-negative value. -/
theorem le_foldl_digits (cs : List Char) (acc : Int) (hcs : ∀ c ∈ cs, '0' ≤ c ∧ c ≤ '9')
    (hacc : 0 ≤ acc) :
    acc ≤ cs.foldl (fun n c => n * 10 + ((c.toNat : Int) - ('0'.toNat : Int))) acc := by
  induction cs generalizing acc with
  | nil => exact le_refl _
  | cons c cs ih =>
    obtain ⟨d₀, d₉⟩ := digit_bounds c (hcs c (List.mem_cons_self c cs))
    have step := ih (acc * 10 + ((c.toNat : Int) - ('0'.toNat : Int)))
      (fun x hx => hcs x (List.mem_cons_of_mem c hx)) (by omega)
    rw [List.foldl_cons]
    omega

/-- The accumulation of `from_chars` over decimal digits, for an unsigned
destination that can hold the final value: no step fails and the result is the
positional value, valid. -/
theorem from_chars_accumulate_digits (T : IntType) (hT : is_signed T = false)
    (cs : List Char) (acc : Int) (hcs : ∀ c ∈ cs, '0' ≤ c ∧ c ≤ '9') (hacc : 0 ≤ acc)
    (hmax : cs.foldl (fun n c => n * 10 + ((c.toNat : Int) - ('0'.toNat : Int))) acc
      ≤ numeric_limits_max T) :
    from_chars_accumulate T 10 false cs acc =
      safe_integral.mk
        (cs.foldl (fun n c => n * 10 + ((c.toNat : Int) - ('0'.toNat : Int))) acc) false := by
  have m := unsigned_min_eq T hT
  induction cs generalizing acc with
  | nil => rfl
  | cons c cs ih =>
    have hc := hcs c (List.mem_cons_self c cs)
    have hrest : ∀ x ∈ cs, '0' ≤ x ∧ x ≤ '9' := fun x hx => hcs x (List.mem_cons_of_mem c hx)
    obtain ⟨d₀, d₉⟩ := digit_bounds c hc
    rw [List.foldl_cons] at hmax ⊢
    have hnext : 0 ≤ acc * 10 + ((c.toNat : Int) - ('0'.toNat : Int)) := by omega
    have hle := le_foldl_digits cs _ hrest hnext
    have hv : is_value T (acc * 10 + ((c.toNat : Int) - ('0'.toNat : Int))) := by
      constructor
      · rw [m]
        exact hnext
      · omega
    unfold from_chars_accumulate
    rw [digit_value_decimal c hc]
    simp only [Bool.false_eq_true, if_false]
    rw [if_pos hv]
    exact ih _ hrest hnext hmax

/-- The constants of the literal operators: `to_i32(10)` is the valid 10. -/
theorem base10_eq (P : Platform) : to_i32 P .int32 10 = safe_integral.mk 10 false :=
  convert_of_is_value P .int32 .int32 10 (by decide) (by decide)

/-- A text of decimal digits does not start with `0x`. -/
theorem not_starts_with_0x (str : List Char) (h : is_decimal_text str) :
    starts_with str "0x".toList = false := by
  obtain ⟨hne, hd⟩ := h
  match str, hne, hd with
  | [c], _, _ =>
    show List.isPrefixOf ['0', 'x'] [c] = false
    simp [List.isPrefixOf]
  | c :: c' :: cs, _, hd =>
    have hc' := hd c' (by simp)
    have hx : c' ≠ 'x' := by
      rintro rfl
      exact absurd hc'.2 (by decide)
    show List.isPrefixOf ['0', 'x'] (c :: c' :: cs) = false
    simp only [List.isPrefixOf, Bool.and_eq_false_imp, beq_iff_eq, Bool.and_true,
      beq_eq_false_iff_ne, ne_eq]
    intro _ h
    exact hx h.symm

/-- The body of the unsigned literal operators on a text of decimal digits whose
value the destination can hold. -/
theorem unsigned_literal_decimal (P : Platform) (T : IntType) (str : List Char)
    (hT : is_signed T = false) (hd : is_decimal_text str)
    (hn : decimal_value str ≤ numeric_limits_max T) :
    unsigned_literal P T str = safe_integral.mk (decimal_value str) false := by
  unfold unsigned_literal
  simp only []
  rw [not_starts_with_0x str hd, base10_eq P]
  simp only [Bool.false_eq_true, if_false]
  unfold from_chars
  obtain ⟨hne, hdig⟩ := hd
  match str, hne, hdig, hn with
  | c :: cs, _, hdig, hn =>
    have hneg : ¬ (c = '-' ∧ is_signed T = true) := by
      rintro ⟨_, h⟩
      rw [hT] at h
      exact absurd h (by decide)
    simp only [safe_integral.invalid, safe_integral.get, Bool.false_eq_true, if_false, if_true]
    rw [if_neg hneg]
    exact from_chars_accumulate_digits T hT (c :: cs) 0 hdig (le_refl 0) hn

/-- The minimum of every type is at most zero. -/
theorem min_le_zero (T : IntType) : numeric_limits_min T ≤ 0 := by
  cases T <;> decide

/-- Reading further digits in a base of at least 1 never decreases a
non-negative value. -/
theorem le_foldl_base (base : Int) (dv : Char → Int) (hb : 1 ≤ base) (cs : List Char)
    (acc : Int) (hcs : ∀ c ∈ cs, 0 ≤ dv c) (hacc : 0 ≤ acc) :
    acc ≤ cs.foldl (fun n c => n * base + dv c) acc := by
  induction cs generalizing acc with
  | nil => exact le_refl _
  | cons c cs ih =>
    have hd := hcs c (List.mem_cons_self c cs)
    have hm : acc ≤ acc * base := le_mul_of_one_le_right hacc hb
    have step := ih (acc * base + dv c)
      (fun x hx => hcs x (List.mem_cons_of_mem c hx)) (by omega)
    rw [List.foldl_cons]
    omega

/-- The accumulation of `from_chars` over digits of the base, without a sign:
the result is the positional value, valid, when the destination can hold it, and
`failure()` otherwise. -/
theorem from_chars_accumulate_eq (T : IntType) (base : Int) (dv : Char → Int)
    (hb : 1 ≤ base) (cs : List Char) (acc : Int)
    (hcs : ∀ c ∈ cs, digit_value base c = some (dv c) ∧ 0 ≤ dv c)
    (hacc : 0 ≤ acc) (hle : acc ≤ numeric_limits_max T) :
    from_chars_accumulate T base false cs acc =
      if cs.foldl (fun n c => n * base + dv c) acc ≤ numeric_limits_max T then
        safe_integral.mk (cs.foldl (fun n c => n * base + dv c) acc) false
      else safe_integral.failure T := by
  have m := min_le_zero T
  induction cs generalizing acc with
  | nil =>
    simp only [List.foldl_nil]
    rw [if_pos hle]
    rfl
  | cons c cs ih =>
    obtain ⟨hc, hd⟩ := hcs c (List.mem_cons_self c cs)
    have hrest : ∀ x ∈ cs, digit_value base x = some (dv x) ∧ 0 ≤ dv x :=
      fun x hx => hcs x (List.mem_cons_of_mem c hx)
    have hm : acc ≤ acc * base := le_mul_of_one_le_right hacc hb
    have hnext : 0 ≤ acc * base + dv c := by omega
    have hmono := le_foldl_base base dv hb cs (acc * base + dv c)
      (fun x hx => (hrest x hx).2) hnext
    rw [List.foldl_cons]
    unfold from_chars_accumulate
    rw [hc]
    simp only [Bool.false_eq_true, if_false]
    by_cases hv : acc * base + dv c ≤ numeric_limits_max T
    · rw [if_pos (show is_value T (acc * base + dv c) from ⟨by omega, hv⟩)]
      exact ih _ hrest hnext hv
    · have hnv : ¬ is_value T (acc * base + dv c) := fun h => hv h.2
      rw [if_neg hnv, if_neg (by omega)]

/-- The constants of the literal operators: `to_i32(16)` is the valid 16. -/
theorem base16_eq (P : Platform) : to_i32 P .int32 16 = safe_integral.mk 16 false :=
  convert_of_is_value P .int32 .int32 16 (by decide) (by decide)

/-- The constants of the literal operators: `to_umax(2)` is the valid 2. -/
theorem offset_eq (P : Platform) : to_umax P .int32 2 = safe_integral.mk 2 false :=
  convert_of_is_value P .uintmax .int32 2 (by decide) (by decide)

/-- The value of `from_chars` in base 10 on a text of decimal digits, for any
destination: the denoted integer when it fits, `failure()` when it does not. -/
theorem from_chars_decimal (T : IntType) (str : List Char) (hd : is_decimal_text str) :
    from_chars T str (safe_integral.mk 10 false) =
      if decimal_value str ≤ numeric_limits_max T then safe_integral.mk (decimal_value str) false
      else safe_integral.failure T := by
  obtain ⟨hne, hdig⟩ := hd
  unfold from_chars
  match str, hne, hdig with
  | c :: cs, _, hdig =>
    have hc := hdig c (List.mem_cons_self c cs)
    have hneg : ¬ (c = '-' ∧ is_signed T = true) := by
      rintro ⟨rfl, _⟩
      exact absurd hc.1 (by decide)
    simp only [safe_integral.invalid, safe_integral.get, Bool.false_eq_true, if_false, if_true]
    rw [if_neg hneg]
    exact from_chars_accumulate_eq T 10 (fun c => (c.toNat : Int) - ('0'.toNat : Int))
      (by decide) (c :: cs) 0
      (fun x hx => ⟨digit_value_decimal x (hdig x hx), (digit_bounds x (hdig x hx)).1⟩)
      (le_refl 0) (le_of_lt (max_pos T))

/-- In base 16 a hexadecimal digit is read as the number it stands for, which
is not negative. -/
theorem digit_value_hex (c : Char) (h : is_hex_digit c) :
    digit_value 16 c = some (hex_digit c) ∧ 0 ≤ hex_digit c := by
  have e0 : ('0' : Char).toNat = 48 := rfl
  have e9 : ('9' : Char).toNat = 57 := rfl
  have eA : ('A' : Char).toNat = 65 := rfl
  have eF : ('F' : Char).toNat = 70 := rfl
  have ea : ('a' : Char).toNat = 97 := rfl
  have ef : ('f' : Char).toNat = 102 := rfl
  have toN : ∀ a b : Char, a ≤ b → a.toNat ≤ b.toNat := fun _ _ h => h
  unfold digit_value hex_digit
  rcases h with ⟨h₁, h₂⟩ | ⟨h₁, h₂⟩ | ⟨h₁, h₂⟩
  · have a := toN _ _ h₁
    rw [if_pos ⟨h₁, h₂⟩, if_pos h₂]
    exact ⟨rfl, by omega⟩
  · have a := toN _ _ h₁
    have n9 : ¬ c ≤ '9' := fun h => by
      have := toN _ _ h
      omega
    have nF : ¬ c ≤ 'F' := fun h => by
      have := toN _ _ h
      omega
    rw [if_neg (fun h => n9 h.2), if_pos ⟨rfl, h₁, h₂⟩, if_neg n9, if_neg nF]
    exact ⟨rfl, by omega⟩
  · have a := toN _ _ h₁
    have b := toN _ _ h₂
    have n9 : ¬ c ≤ '9' := fun h => by
      have := toN _ _ h
      omega
    have na : ¬ 'a' ≤ c := fun h => by
      have := toN _ _ h
      omega
    rw [if_neg (fun h => n9 h.2), if_neg (fun h => na h.2.1), if_pos ⟨rfl, h₁, h₂⟩,
      if_neg n9, if_pos h₂]
    exact ⟨rfl, by omega⟩

/-- The value of `from_chars` in base 16 on a text of hexadecimal digits, for any
destination: the denoted integer when it fits, `failure()` when it does not. -/
theorem from_chars_hex (T : IntType) (str : List Char) (hh : is_hex_text str) :
    from_chars T str (safe_integral.mk 16 false) =
      if hex_value str ≤ numeric_limits_max T then safe_integral.mk (hex_value str) false
      else safe_integral.failure T := by
  obtain ⟨hne, hdig⟩ := hh
  unfold from_chars
  match str, hne, hdig with
  | c :: cs, _, hdig =>
    simp only [safe_integral.invalid, safe_integral.get, Bool.false_eq_true, if_false,
      List.isEmpty_cons]
    rw [if_pos trivial]
    exact from_chars_accumulate_eq T 16 hex_digit (by decide) (c :: cs) 0
      (fun x hx => digit_value_hex x (hdig x hx)) (le_refl 0) (le_of_lt (max_pos T))

/-- The text handed to `from_chars` after a `0x` prefix: what follows the first
two characters, for a text whose length is a `uintmax`. -/
theorem substr_offset_two (P : Platform) (str : List Char)
    (hlen : (str.length : Int) ≤ numeric_limits_max .uintmax) :
    substr str (to_umax P .int32 2) npos = str.drop 2 := by
  rw [offset_eq P]
  unfold substr npos
  simp only [safe_integral.get, numeric_limits_max] at hlen ⊢
  show List.take _ (List.drop 2 str) = List.drop 2 str
  apply List.take_of_length_le
  have := List.length_drop 2 str
  omega

/-- The body of the unsigned literal operators, with the constants evaluated:
base 16 on what follows the first two characters when the text starts with
`0x`, base 10 on the whole text otherwise. -/
theorem unsigned_literal_eq (P : Platform) (T : IntType) (str : List Char)
    (hlen : (str.length : Int) ≤ numeric_limits_max .uintmax) :
    unsigned_literal P T str =
      if starts_with str "0x".toList = true then
        from_chars T (str.drop 2) (safe_integral.mk 16 false)
      else from_chars T str (safe_integral.mk 10 false) := by
  unfold unsigned_literal
  simp only []
  rw [substr_offset_two P str hlen, base10_eq P, base16_eq P]

/-- The body of the signed literal operators, with the constant evaluated: base
10 on the whole text. -/
theorem signed_literal_eq (P : Platform) (T : IntType) (str : List Char) :
    signed_literal P T str = from_chars T str (safe_integral.mk 10 false) := by
  unfold signed_literal
  simp only []
  rw [base10_eq P]

/-- A checked result built from a poisoned operand is poisoned, whichever branch
is taken. -/
theorem checked_result_poisoned (T : IntType) (undefined : Bool) (raw : Int) :
    (checked_result T true undefined raw).poisoned = true := by
  unfold checked_result
  split_ifs <;> rfl

/-- A checked result of an undefined operation is `failure()`. -/
theorem checked_result_undefined (T : IntType) (p : Bool) (raw : Int) :
    checked_result T p true raw = safe_integral.failure T := by
  unfold checked_result
  rw [if_pos rfl]

/-- The first component of the traced conversion is the conversion itself. -/
theorem convert_traced_fst (P : Platform) (T F : IntType) (val : Int) :
    (convert_traced P T F val).1 = convert P T F val := by
  unfold convert_traced convert
  simp only []
  split_ifs <;> rfl

/-- Every cast on the path of the conversion of a value of `F` preserves the
value of what is cast, and the argument is cast to `uintmax` only when it is not
negative. -/
theorem convert_traced_snd (P : Platform) (T F : IntType) (val : Int)
    (h : is_value F val) :
    (∀ c ∈ (convert_traced P T F val).2,
        static_cast c.1 (c.2.value T F val) = c.2.value T F val) ∧
      (∀ c ∈ (convert_traced P T F val).2, c.2 = CastOperand.t_min → c.1 = IntType.intmax) ∧
      ((IntType.uintmax, CastOperand.val) ∈ (convert_traced P T F val).2 → 0 ≤ val) := by
  have hFp := max_pos F
  have hTp := max_pos T
  have hFu := max_le F
  have hTu := max_le T
  obtain ⟨hv₁, hv₂⟩ := h
  have z := static_cast_intmax_eq 0 (by omega) (by omega)
  unfold convert_traced
  cases hF : is_signed F <;> cases hT : is_signed T <;>
    simp only [Bool.false_eq_true, if_true, if_false, gt_iff_lt]
  · -- unsigned to unsigned
    have mF := unsigned_min_eq F hF
    have c₁ := static_cast_uintmax_eq (numeric_limits_max T) (by omega) hTu
    have c₂ := static_cast_uintmax_eq (numeric_limits_max F) (by omega) hFu
    have c₃ := static_cast_uintmax_eq val (by omega) (by omega)
    have h0 : 0 ≤ val := by omega
    split_ifs <;>
      simp [convert_constants, hF, hT, CastOperand.value, c₁, c₂, c₃, h0]
  · -- unsigned to signed
    have mF := unsigned_min_eq F hF
    have c₁ := static_cast_uintmax_eq (numeric_limits_max T) (by omega) hTu
    have c₂ := static_cast_uintmax_eq (numeric_limits_max F) (by omega) hFu
    have c₃ := static_cast_uintmax_eq val (by omega) (by omega)
    have h0 : 0 ≤ val := by omega
    split_ifs <;>
      simp [convert_constants, hF, hT, CastOperand.value, c₁, c₂, c₃, h0]
  · -- signed to unsigned
    have mF := signed_min_eq F hF
    have sF := signed_max_le F hF
    have c₁ := static_cast_uintmax_eq (numeric_limits_max T) (by omega) hTu
    have c₂ := static_cast_uintmax_eq (numeric_limits_max F) (by omega) hFu
    have c₃ := static_cast_intmax_eq val (by omega) (by omega)
    rw [c₃, z]
    by_cases hn : val < 0
    · simp only [hn, if_true]
      split_ifs <;>
        simp [convert_constants, hF, hT, CastOperand.value, c₁, c₂, c₃, z]
    · have h0 : 0 ≤ val := by omega
      have c₅ := static_cast_uintmax_eq val h0 (by omega)
      simp only [hn, if_false]
      split_ifs <;>
        simp [convert_constants, hF, hT, CastOperand.value, c₁, c₂, c₃, c₅, z, h0]
  · -- signed to signed
    have mF := signed_min_eq F hF
    have mT := signed_min_eq T hT
    have sF := signed_max_le F hF
    have sT := signed_max_le T hT
    have c₁ := static_cast_intmax_eq (numeric_limits_max T) (by omega) sT
    have c₂ := static_cast_intmax_eq (numeric_limits_min T) (by omega) (by omega)
    have c₃ := static_cast_intmax_eq (numeric_limits_max F) (by omega) sF
    have c₄ := static_cast_intmax_eq val (by omega) (by omega)
    split_ifs <;>
      simp [convert_constants, hF, hT, CastOperand.value, c₁, c₂, c₃, c₄]

/-- The evaluation of the raw overload follows `convert` path by path: where
`convert` returns the cast value so does the evaluation, and where `convert`
returns `failure()` the evaluation first calls the narrowing hook. -/
theorem convert_evaluated_cases (ce : Bool) (P : Platform) (T F : IntType) (val : Int) :
    (convert P T F val = safe_integral.mk (static_cast T val) false ∧
        convert_evaluated ce P T F val = some (safe_integral.mk (static_cast T val) false)) ∨
      (convert P T F val = safe_integral.failure T ∧
        convert_evaluated ce P T F val =
          (conversion_failure_narrowing_results_in_loss_of_data ce).bind
            fun _ => some (safe_integral.failure T)) := by
  unfold convert_evaluated convert
  simp only []
  split_ifs <;> first
    | exact Or.inl ⟨rfl, rfl⟩
    | exact Or.inr ⟨rfl, rfl⟩

/-- At run time the evaluation of the raw overload always yields the result of
`convert`. -/
theorem convert_evaluated_run_time (P : Platform) (T F : IntType) (val : Int) :
    convert_evaluated false P T F val = some (convert P T F val) := by
  rcases convert_evaluated_cases false P T F val with ⟨h₁, h₂⟩ | ⟨h₁, h₂⟩
  · rw [h₁, h₂]
  · rw [h₁, h₂]
    rfl

/-- In a constant-evaluated context the evaluation of the raw overload yields
the result of `convert` when that result is valid, and is rejected when it is
not. -/
theorem convert_evaluated_constant (P : Platform) (T F : IntType) (val : Int) :
    convert_evaluated true P T F val =
      if (convert P T F val).poisoned = true then none else some (convert P T F val) := by
  rcases convert_evaluated_cases true P T F val with ⟨h₁, h₂⟩ | ⟨h₁, h₂⟩ <;>
    rw [h₁, h₂] <;> rfl

/-- Whatever the evaluation of the raw overload yields is the result of
`convert`. -/
theorem convert_evaluated_sound (ce : Bool) (P : Platform) (T F : IntType) (val : Int)
    (r : safe_integral T) (h : convert_evaluated ce P T F val = some r) :
    r = convert P T F val := by
  cases ce
  · rw [convert_evaluated_run_time] at h
    exact (Option.some.inj h).symm
  · rw [convert_evaluated_constant] at h
    split_ifs at h
    exact (Option.some.inj h).symm

/-- At run time the evaluation of the `safe_integral` overload always yields the
result of `convert`. -/
theorem convert_safe_evaluated_run_time (P : Platform) (T F : IntType) (s : safe_integral F) :
    convert_safe_evaluated false P T F s = some (convert_safe P T F s) := by
  unfold convert_safe_evaluated convert_safe
  split_ifs
  · rfl
  · exact convert_evaluated_run_time P T F s.get

/-- Whatever the evaluation of the `safe_integral` overload yields is the result
of `convert`. -/
theorem convert_safe_evaluated_sound (ce : Bool) (P : Platform) (T F : IntType)
    (s : safe_integral F) (r : safe_integral T)
    (h : convert_safe_evaluated ce P T F s = some r) : r = convert_safe P T F s := by
  unfold convert_safe_evaluated at h
  unfold convert_safe
  split_ifs at h ⊢
  · exact (Option.some.inj h).symm
  · exact convert_evaluated_sound ce P T F s.get r h

/-- Whatever the evaluation of `to_umax_upper_lower` yields is the result of
`to_umax_upper_lower`. -/
theorem to_umax_upper_lower_evaluated_sound (ce : Bool) (P : Platform) (T : IntType)
    (upper : safe_integral .uintmax) (lower : safe_integral T) (r : safe_integral .uintmax)
    (h : to_umax_upper_lower_evaluated ce P upper lower = some r) :
    r = to_umax_upper_lower P upper lower := by
  have key : ∀ (mask : safe_integral .uintmax),
      (convert_safe_evaluated ce P .uintmax T lower).bind
        (fun low => some (operator_or (operator_and upper mask) low)) = some r →
      r = operator_or (operator_and upper mask) (to_umax_safe P lower) := by
    intro mask hb
    obtain ⟨low, hlow, hr⟩ := Option.bind_eq_some.1 hb
    rw [convert_safe_evaluated_sound ce P .uintmax T lower low hlow] at hr
    exact (Option.some.inj hr).symm
  unfold to_umax_upper_lower_evaluated at h
  unfold to_umax_upper_lower
  simp only [] at h ⊢
  split_ifs at h ⊢
  · exact key _ h
  · exact key _ h
  · exact key _ h
  · exact (Option.some.inj h).symm
  · cases ce
    · exact (Option.some.inj h).symm
    · exact absurd h (by simp [conversion_failure_bit_masks_on_signed_integral])

/-- At run time the evaluation of `to_umax_upper_lower` always yields its
result. -/
theorem to_umax_upper_lower_evaluated_run_time (P : Platform) (T : IntType)
    (upper : safe_integral .uintmax) (lower : safe_integral T) :
    to_umax_upper_lower_evaluated false P upper lower =
      some (to_umax_upper_lower P upper lower) := by
  unfold to_umax_upper_lower_evaluated to_umax_upper_lower
  simp only [convert_safe_evaluated_run_time, Option.some_bind,
    conversion_failure_bit_masks_on_signed_integral, Bool.false_eq_true, if_false]
  split_ifs <;> rfl

/-- The merge with a valid lower operand of type `uint8`, `uint16` or `uint32`
holding a value of its type, on an upper holding a value of `uintmax`: the low
`width T` bits are `lower`, the rest is `upper`, and the flag is that of
`upper`. -/
theorem merge_narrow_value (P : Platform) (T : IntType)
    (upper : safe_integral .uintmax) (lower : safe_integral T)
    (hT : T = .uint8 ∨ T = .uint16 ∨ T = .uint32)
    (huv : is_value .uintmax upper.value)
    (hlp : lower.poisoned = false) (hlv : is_value T lower.value) :
    to_umax_upper_lower P upper lower =
      safe_integral.mk (2 ^ width T * (upper.value / 2 ^ width T) + lower.value)
        upper.poisoned ∧
      0 ≤ lower.value ∧ lower.value < 2 ^ width T := by
  have hs : is_signed T = false := by
    rcases hT with rfl | rfl | rfl <;> rfl
  have hw : width T ≤ 64 := by
    rcases hT with rfl | rfl | rfl <;> decide
  have hlt : lower.value < 2 ^ width T := by
    have := hlv.2
    rcases hT with rfl | rfl | rfl <;>
      simp only [numeric_limits_max] at this <;>
      simp only [width] <;> omega
  have hl0 : 0 ≤ lower.value := by
    have := hlv.1
    rw [unsigned_min_eq T hs] at this
    exact this
  have hto : to_umax_safe P lower = safe_integral.mk lower.value false := by
    unfold to_umax_safe
    rw [convert_safe_of_valid P _ T lower hlp,
      convert_of_is_value P _ T lower.value hlv (is_value_uintmax_of_unsigned T _ hs hlv)]
  have key := to_umax_upper_lower_narrow P T upper lower hT
  rw [hto] at key
  rw [key, (masked_merge (width T) hw upper (safe_integral.mk lower.value false)
    huv hl0 hlt).1]
  refine ⟨?_, hl0, hlt⟩
  simp

/-- A cast to an unsigned type of a number whose low `width T` bits are `l`
gives `l`. -/
theorem static_cast_low_bits (T : IntType) (hs : is_signed T = false) (q l : Int)
    (h0 : 0 ≤ l) (hlt : l < 2 ^ width T) :
    static_cast T (2 ^ width T * q + l) = l := by
  rw [static_cast_unsigned T _ hs, Int.add_comm, Int.add_mul_emod_self_left]
  exact Int.emod_eq_of_lt h0 hlt

/-- Casting the merge back to the type of a narrow lower operand gives the
value of that operand. -/
theorem extract_narrow (P : Platform) (T : IntType)
    (upper : safe_integral .uintmax) (lower : safe_integral T)
    (hT : T = .uint8 ∨ T = .uint16 ∨ T = .uint32)
    (huv : is_value .uintmax upper.value)
    (hlp : lower.poisoned = false) (hlv : is_value T lower.value) :
    static_cast T (to_umax_upper_lower P upper lower).get = lower.value := by
  have hs : is_signed T = false := by
    rcases hT with rfl | rfl | rfl <;> rfl
  obtain ⟨e, h0, hlt⟩ := merge_narrow_value P T upper lower hT huv hlp hlv
  rw [e]
  exact static_cast_low_bits T hs _ _ h0 hlt

/-- Merging into an upper the cast of its own value to a narrow type gives the
upper back. -/
theorem merge_own_narrow (P : Platform) (T : IntType) (upper : safe_integral .uintmax)
    (hT : T = .uint8 ∨ T = .uint16 ∨ T = .uint32)
    (huv : is_value .uintmax upper.value) :
    to_umax_upper_lower P upper (safe_integral.mk (static_cast T upper.get) false :
      safe_integral T) = upper := by
  have hs : is_signed T = false := by
    rcases hT with rfl | rfl | rfl <;> rfl
  obtain ⟨e, _, _⟩ := merge_narrow_value P T upper
    (safe_integral.mk (static_cast T upper.get) false) hT huv rfl
    (static_cast_is_value T upper.get)
  rw [e]
  show safe_integral.mk (2 ^ width T * (upper.value / 2 ^ width T) +
    static_cast T upper.value) upper.poisoned = upper
  rw [static_cast_unsigned T _ hs, Int.ediv_add_emod]

/-- Whenever the raw overload of `convert` returns a valid result, that result
is the plain cast of the argument, marked valid. -/
theorem convert_valid_eq_cast (P : Platform) (T F : IntType) (v : Int)
    (h : (convert P T F v).valid = true) :
    safe_integral.mk (static_cast T v) false = convert P T F v := by
  rcases convert_cases P T F v with e | e
  · exact e.symm
  · rw [e] at h
    exact absurd h Bool.false_ne_true

/-- C1: for every source type `F`, destination type `T` and raw value `v` of
type `F` whose mathematical value lies in `[min T, max T]`, `convert<T>(v)` is
valid and `convert<T>(v).get()` equals `v`. -/
theorem convert_in_range (P : Platform) (T F : IntType) (v : Int)
    (hF : is_value F v)
    (hT : numeric_limits_min T ≤ v ∧ v ≤ numeric_limits_max T) :
    (convert P T F v).valid = true ∧ (convert P T F v).get = v := by
  rw [convert_of_is_value P T F v hF hT]
  exact ⟨rfl, rfl⟩

/-- Instance of C1: the `int16` value 100 converted to `uint8`. -/
theorem convert_in_range_witness :
    is_value .int16 100 ∧
      (numeric_limits_min .uint8 ≤ 100 ∧ (100 : Int) ≤ numeric_limits_max .uint8) ∧
      ((convert ⟨true⟩ .uint8 .int16 100).valid = true ∧
        (convert ⟨true⟩ .uint8 .int16 100).get = 100) :=
  ⟨by decide, by decide, convert_in_range ⟨true⟩ .uint8 .int16 100 (by decide) (by decide)⟩

/-- C2: for every source type `F`, destination type `T` and raw value `v` of
type `F` below `min T` or above `max T`, `convert<T>(v)` is invalid; and the
unsigned 32-bit value 200 converted to `int8` is invalid while converted to
`int16` it is valid and equals 200. -/
theorem convert_out_of_range (P : Platform) (T F : IntType) (v : Int)
    (hF : is_value F v)
    (hT : v < numeric_limits_min T ∨ numeric_limits_max T < v) :
    (convert P T F v).invalid = true ∧
      (convert P .int8 .uint32 200).invalid = true ∧
      (convert P .int16 .uint32 200).valid = true ∧
      (convert P .int16 .uint32 200).get = 200 := by
  refine ⟨?_, ?_, ?_, ?_⟩
  · rw [convert_of_not_is_value P T F v hF (not_is_value_of_out T v hT)]
    rfl
  · rw [convert_of_not_is_value P .int8 .uint32 200 (by decide) (by decide)]
    rfl
  · rw [convert_of_is_value P .int16 .uint32 200 (by decide) (by decide)]
    rfl
  · rw [convert_of_is_value P .int16 .uint32 200 (by decide) (by decide)]
    rfl

/-- Instance of C2: the `uint32` value 200 converted to `int8`. -/
theorem convert_out_of_range_witness :
    is_value .uint32 200 ∧
      ((200 : Int) < numeric_limits_min .int8 ∨ numeric_limits_max .int8 < 200) ∧
      (convert ⟨false⟩ .int8 .uint32 200).invalid = true :=
  ⟨by decide, by decide,
    (convert_out_of_range ⟨false⟩ .int8 .uint32 200 (by decide) (by decide)).1⟩

/-- C3: whenever `convert<T>` fails, because the raw value `v` of type `F` is
out of `T`'s range, or because the `safe_integral<F>` source is poisoned (or
holds a value out of `T`'s range), the returned `safe_integral<T>` is poisoned
and its stored value `get()` is exactly 0; more generally any poisoned result of
the raw overload stores 0, whatever integer it was called on. -/
theorem convert_failure_value (P : Platform) (T F : IntType) (v : Int)
    (s : safe_integral F) :
    (is_value F v → (v < numeric_limits_min T ∨ numeric_limits_max T < v) →
      (convert P T F v).poisoned = true ∧ (convert P T F v).get = 0) ∧
    (s.poisoned = true →
      (convert_safe P T F s).poisoned = true ∧ (convert_safe P T F s).get = 0) ∧
    (is_value F s.value →
      (s.value < numeric_limits_min T ∨ numeric_limits_max T < s.value) →
      (convert_safe P T F s).poisoned = true ∧ (convert_safe P T F s).get = 0) ∧
    ((convert P T F v).poisoned = true → (convert P T F v).get = 0) := by
  refine ⟨?_, ?_, ?_, ?_⟩
  · intro hF hT
    rw [convert_of_not_is_value P T F v hF (not_is_value_of_out T v hT)]
    exact ⟨rfl, rfl⟩
  · intro hs
    rw [convert_safe_of_poisoned P T F s hs]
    exact ⟨rfl, rfl⟩
  · intro hF hT
    cases hs : s.poisoned
    · rw [convert_safe_of_valid P T F s hs,
        convert_of_not_is_value P T F s.value hF (not_is_value_of_out T s.value hT)]
      exact ⟨rfl, rfl⟩
    · rw [convert_safe_of_poisoned P T F s hs]
      exact ⟨rfl, rfl⟩
  · intro hp
    rcases convert_cases P T F v with h | h
    · rw [h] at hp
      exact absurd hp Bool.false_ne_true
    · rw [h]
      rfl

/-- Instance of C3: the `int32` value 300 converted to `uint8`, and a poisoned
`int32` 42 converted to `int32`. -/
theorem convert_failure_value_witness :
    ((convert ⟨true⟩ .uint8 .int32 300).poisoned = true ∧
      (convert ⟨true⟩ .uint8 .int32 300).get = 0) ∧
    ((convert_safe ⟨true⟩ .int32 .int32 (safe_integral.mk 42 true)).poisoned = true ∧
      (convert_safe ⟨true⟩ .int32 .int32 (safe_integral.mk 42 true)).get = 0) :=
  ⟨(convert_failure_value ⟨true⟩ .uint8 .int32 300 (safe_integral.mk 42 true)).1
      (by decide) (by decide),
   (convert_failure_value ⟨true⟩ .int32 .int32 300 (safe_integral.mk 42 true)).2.1 rfl⟩

/-- C4: for every pair of types `F` and `T` (including `F = T`) and every
poisoned `safe_integral<F>` `s`, whatever value `s` stores, `convert<T>(s)` is
invalid: it is `failure()`, returned before the stored value is looked at. -/
theorem convert_safe_poisoned (P : Platform) (T F : IntType) (s : safe_integral F)
    (hs : s.invalid = true) :
    (convert_safe P T F s).invalid = true ∧
      convert_safe P T F s = safe_integral.failure T := by
  rw [convert_safe_of_poisoned P T F s hs]
  exact ⟨rfl, rfl⟩

/-- Instance of C4: the poisoned `safe_int32{42, true}` of the test suite,
converted to `int32`. -/
theorem convert_safe_poisoned_witness :
    (safe_integral.mk 42 true : safe_integral .int32).invalid = true ∧
      (convert_safe ⟨true⟩ .int32 .int32 (safe_integral.mk 42 true)).invalid = true :=
  ⟨rfl, (convert_safe_poisoned ⟨true⟩ .int32 .int32 (safe_integral.mk 42 true) rfl).1⟩

/-- C5: when `F` and `T` are the same type, `convert<T>` is the identity marked
valid: for every raw value `v` of that type `convert<T>(v)` is valid with
`get() == v`, and for every valid `safe_integral` `s` of that type
`convert<T>(s)` is valid with `get() == s.get()`. -/
theorem convert_same_type (P : Platform) (T F : IntType) (v : Int) (s : safe_integral F)
    (hsame : is_same P F T = true) (hv : is_value F v)
    (hs : s.valid = true) (hsv : is_value F s.value) :
    ((convert P T F v).valid = true ∧ (convert P T F v).get = v) ∧
      ((convert_safe P T F s).valid = true ∧ (convert_safe P T F s).get = s.get) := by
  obtain ⟨e₁, e₂⟩ := is_same_limits P F T hsame
  have hp : s.poisoned = false := by
    cases h : s.poisoned
    · rfl
    · simp [safe_integral.valid, h] at hs
  constructor
  · rw [convert_of_is_value P T F v hv ⟨e₁ ▸ hv.1, e₂ ▸ hv.2⟩]
    exact ⟨rfl, rfl⟩
  · rw [convert_safe_of_valid P T F s hp,
      convert_of_is_value P T F s.value hsv ⟨e₁ ▸ hsv.1, e₂ ▸ hsv.2⟩]
    exact ⟨rfl, rfl⟩

/-- Instance of C5: `convert<int32>` of the raw 42 and of `safe_int32{42}`, as
in the test suite. -/
theorem convert_same_type_witness :
    is_same ⟨false⟩ .int32 .int32 = true ∧
      ((convert ⟨false⟩ .int32 .int32 42).valid = true ∧
        (convert ⟨false⟩ .int32 .int32 42).get = 42) ∧
      ((convert_safe ⟨false⟩ .int32 .int32 (safe_integral.mk 42 false)).valid = true ∧
        (convert_safe ⟨false⟩ .int32 .int32 (safe_integral.mk 42 false)).get = 42) :=
  ⟨by decide,
    convert_same_type ⟨false⟩ .int32 .int32 42 (safe_integral.mk 42 false)
      (by decide) (by decide) rfl (by decide)⟩

/-- C6: for every signed source type `F`, every unsigned destination type `T`
of any width and every negative value `v` of type `F`, `convert<T>(v)` is
invalid; the result is `failure()`, not a reinterpretation of the bits of `v`. -/
theorem convert_negative_to_unsigned (P : Platform) (T F : IntType) (v : Int)
    (hF : is_signed F = true) (hT : is_signed T = false)
    (hv : is_value F v) (hneg : v < 0) :
    (convert P T F v).invalid = true ∧ convert P T F v = safe_integral.failure T := by
  have _mF := signed_min_eq F hF
  have m := unsigned_min_eq T hT
  rw [convert_of_not_is_value P T F v hv (not_is_value_of_out T v (Or.inl (by omega)))]
  exact ⟨rfl, rfl⟩

/-- Instance of C6: `int8` minimum converted to `uint64`. -/
theorem convert_negative_to_unsigned_witness :
    is_value .int8 (-128) ∧ (convert ⟨true⟩ .uint64 .int8 (-128)).invalid = true :=
  ⟨by decide,
    (convert_negative_to_unsigned ⟨true⟩ .uint64 .int8 (-128) rfl rfl
      (by decide) (by decide)).1⟩

/-- C7: for every unsigned source type `F`, every signed destination type `T`
and every value `v` of type `F`, `convert<T>(v).get()` is never negative: if `v`
is greater than `T`'s maximum the result is invalid, otherwise it is valid and
equals `v`. -/
theorem convert_unsigned_to_signed (P : Platform) (T F : IntType) (v : Int)
    (hF : is_signed F = false) (hT : is_signed T = true) (hv : is_value F v) :
    0 ≤ (convert P T F v).get ∧
      (numeric_limits_max T < v → (convert P T F v).invalid = true) ∧
      (v ≤ numeric_limits_max T →
        (convert P T F v).valid = true ∧ (convert P T F v).get = v) := by
  have mF := unsigned_min_eq F hF
  have mT := signed_min_eq T hT
  have pT := max_pos T
  have h0 : 0 ≤ v := by
    have := hv.1
    omega
  by_cases hr : v ≤ numeric_limits_max T
  · rw [convert_of_is_value P T F v hv ⟨by omega, hr⟩]
    exact ⟨h0, fun h => absurd h (by omega), fun _ => ⟨rfl, rfl⟩⟩
  · rw [convert_of_not_is_value P T F v hv (not_is_value_of_out T v (Or.inr (by omega)))]
    exact ⟨le_refl 0, fun _ => rfl, fun h => absurd h hr⟩

/-- Instance of C7: `uint8` maximum converted to `int8` (invalid) and to
`int16` (valid, 255). -/
theorem convert_unsigned_to_signed_witness :
    (convert ⟨true⟩ .int8 .uint8 255).invalid = true ∧
      ((convert ⟨true⟩ .int16 .uint8 255).valid = true ∧
        (convert ⟨true⟩ .int16 .uint8 255).get = 255) :=
  ⟨(convert_unsigned_to_signed ⟨true⟩ .int8 .uint8 255 rfl rfl (by decide)).2.1 (by decide),
   (convert_unsigned_to_signed ⟨true⟩ .int16 .uint8 255 rfl rfl (by decide)).2.2 (by decide)⟩

/-- C8: a widening conversion never fails: for every pair of types `F`, `T` such
that every value of `F` is representable in `T` (`min T <= min F` and
`max F <= max T`), `convert<T>(v)` is valid and equals `v` for every value `v`
of `F`, including `min F` and `max F`. -/
theorem convert_widening (P : Platform) (T F : IntType) (v : Int)
    (hmin : numeric_limits_min T ≤ numeric_limits_min F)
    (hmax : numeric_limits_max F ≤ numeric_limits_max T)
    (hv : is_value F v) :
    ((convert P T F v).valid = true ∧ (convert P T F v).get = v) ∧
      ((convert P T F (numeric_limits_min F)).valid = true ∧
        (convert P T F (numeric_limits_min F)).get = numeric_limits_min F) ∧
      ((convert P T F (numeric_limits_max F)).valid = true ∧
        (convert P T F (numeric_limits_max F)).get = numeric_limits_max F) := by
  have hm := min_le_max F
  obtain ⟨hv₁, hv₂⟩ := hv
  refine ⟨?_, ?_, ?_⟩
  · rw [convert_of_is_value P T F v ⟨hv₁, hv₂⟩ ⟨by omega, by omega⟩]
    exact ⟨rfl, rfl⟩
  · rw [convert_of_is_value P T F _ ⟨le_refl _, hm⟩ ⟨hmin, by omega⟩]
    exact ⟨rfl, rfl⟩
  · rw [convert_of_is_value P T F _ ⟨hm, le_refl _⟩ ⟨by omega, hmax⟩]
    exact ⟨rfl, rfl⟩

/-- Instance of C8: `int8` widened to `intmax`, on the value -7 and on both
limits of `int8`. -/
theorem convert_widening_witness :
    ((convert ⟨false⟩ .intmax .int8 (-7)).valid = true ∧
        (convert ⟨false⟩ .intmax .int8 (-7)).get = -7) ∧
      ((convert ⟨false⟩ .intmax .int8 (numeric_limits_min .int8)).valid = true ∧
        (convert ⟨false⟩ .intmax .int8 (numeric_limits_min .int8)).get =
          numeric_limits_min .int8) ∧
      ((convert ⟨false⟩ .intmax .int8 (numeric_limits_max .int8)).valid = true ∧
        (convert ⟨false⟩ .intmax .int8 (numeric_limits_max .int8)).get =
          numeric_limits_max .int8) :=
  convert_widening ⟨false⟩ .intmax .int8 (-7) (by decide) (by decide) (by decide)

/-- C9: round trip: for every pair of types `F`, `T` and every value `v` of type
`F` that is also representable in `T`, `convert<F>(convert<T>(v))` is valid and
equals `v`. -/
theorem convert_round_trip (P : Platform) (T F : IntType) (v : Int)
    (hF : is_value F v) (hT : is_value T v) :
    (convert_safe P F T (convert P T F v)).valid = true ∧
      (convert_safe P F T (convert P T F v)).get = v := by
  rw [convert_of_is_value P T F v hF hT, convert_safe_of_valid P F T _ rfl,
    convert_of_is_value P F T v hT hF]
  exact ⟨rfl, rfl⟩

/-- Instance of C9: the `uint64` value 100 sent through `int8` and back. -/
theorem convert_round_trip_witness :
    is_value .uint64 100 ∧ is_value .int8 100 ∧
      ((convert_safe ⟨true⟩ .uint64 .int8 (convert ⟨true⟩ .int8 .uint64 100)).valid = true ∧
        (convert_safe ⟨true⟩ .uint64 .int8 (convert ⟨true⟩ .int8 .uint64 100)).get = 100) :=
  ⟨by decide, by decide,
    convert_round_trip ⟨true⟩ .int8 .uint64 100 (by decide) (by decide)⟩

/-- C10: idempotence: for every source type `F`, destination type `T` and every
value `v` (in range of `T` or not), `convert<T>(convert<T>(v))` equals
`convert<T>(v)`, with the same stored value and the same validity flag. -/
theorem convert_idempotent (P : Platform) (T F : IntType) (v : Int) :
    convert_safe P T T (convert P T F v) = convert P T F v ∧
      (convert_safe P T T (convert P T F v)).get = (convert P T F v).get ∧
      (convert_safe P T T (convert P T F v)).valid = (convert P T F v).valid := by
  have key : convert_safe P T T (convert P T F v) = convert P T F v := by
    rcases convert_cases P T F v with h | h
    · rw [h, convert_safe_of_valid P T T _ rfl]
      show convert P T T (static_cast T v) = _
      unfold convert
      rw [if_pos (is_same_refl P T), static_cast_idem]
    · rw [h, convert_safe_of_poisoned P T T _ rfl]
  exact ⟨key, by rw [key], by rw [key]⟩

/-! The properties of the predefined conversion functions. -/

/-- C11: the result of a conversion depends only on the mathematical value
converted, not on the source type: for every destination type `T`, every two
source types `F₁` and `F₂` and every integer `n` representable in both,
`convert<T>` applied to `n` held as `F₁` and to `n` held as `F₂` return the same
validity flag and the same value. -/
theorem convert_source_type_irrelevant (P : Platform) (T F₁ F₂ : IntType) (n : Int)
    (h₁ : is_value F₁ n) (h₂ : is_value F₂ n) :
    convert P T F₁ n = convert P T F₂ n ∧
      (convert P T F₁ n).valid = (convert P T F₂ n).valid ∧
      (convert P T F₁ n).get = (convert P T F₂ n).get := by
  have key : convert P T F₁ n = convert P T F₂ n := by
    rw [convert_eq P T F₁ n h₁, convert_eq P T F₂ n h₂]
  exact ⟨key, by rw [key], by rw [key]⟩

/-- Instance of C11, from the test suite: `to_i8` of the `int8` maximum held in
an `intmax` and held in an `int8`. -/
theorem convert_source_type_irrelevant_witness :
    is_value .intmax 127 ∧ is_value .int8 127 ∧
      to_i8 ⟨true⟩ .intmax 127 = to_i8 ⟨true⟩ .int8 127 :=
  ⟨by decide, by decide,
    (convert_source_type_irrelevant ⟨true⟩ .int8 .intmax .int8 127 (by decide) (by decide)).1⟩

/-- C12: each convenience function `to_i8`, ..., `to_umax` equals `convert<X>` for
its destination type `X` on both of its overloads; consequently for every valid
`safe_integral` `s`, `to_X(s)` and `to_X(s.get())` are the same result (value and
validity). -/
theorem to_functions_eq_convert (P : Platform) (F : IntType) (v : Int) (s : safe_integral F) :
    (to_i8 P F v = convert P .int8 F v ∧ to_i8_safe P s = convert_safe P .int8 F s) ∧
    (to_i16 P F v = convert P .int16 F v ∧ to_i16_safe P s = convert_safe P .int16 F s) ∧
    (to_i32 P F v = convert P .int32 F v ∧ to_i32_safe P s = convert_safe P .int32 F s) ∧
    (to_i64 P F v = convert P .int64 F v ∧ to_i64_safe P s = convert_safe P .int64 F s) ∧
    (to_imax P F v = convert P .intmax F v ∧ to_imax_safe P s = convert_safe P .intmax F s) ∧
    (to_u8 P F v = convert P .uint8 F v ∧ to_u8_safe P s = convert_safe P .uint8 F s) ∧
    (to_u16 P F v = convert P .uint16 F v ∧ to_u16_safe P s = convert_safe P .uint16 F s) ∧
    (to_u32 P F v = convert P .uint32 F v ∧ to_u32_safe P s = convert_safe P .uint32 F s) ∧
    (to_u64 P F v = convert P .uint64 F v ∧ to_u64_safe P s = convert_safe P .uint64 F s) ∧
    (to_umax P F v = convert P .uintmax F v ∧ to_umax_safe P s = convert_safe P .uintmax F s) ∧
    (s.valid = true →
      to_i8_safe P s = to_i8 P F s.get ∧
      to_i16_safe P s = to_i16 P F s.get ∧
      to_i32_safe P s = to_i32 P F s.get ∧
      to_i64_safe P s = to_i64 P F s.get ∧
      to_imax_safe P s = to_imax P F s.get ∧
      to_u8_safe P s = to_u8 P F s.get ∧
      to_u16_safe P s = to_u16 P F s.get ∧
      to_u32_safe P s = to_u32 P F s.get ∧
      to_u64_safe P s = to_u64 P F s.get ∧
      to_umax_safe P s = to_umax P F s.get) := by
  refine ⟨⟨rfl, rfl⟩, ⟨rfl, rfl⟩, ⟨rfl, rfl⟩, ⟨rfl, rfl⟩, ⟨rfl, rfl⟩, ⟨rfl, rfl⟩, ⟨rfl, rfl⟩,
    ⟨rfl, rfl⟩, ⟨rfl, rfl⟩, ⟨rfl, rfl⟩, ?_⟩
  intro hs
  have hp : s.poisoned = false := by
    cases h : s.poisoned
    · rfl
    · simp [safe_integral.valid, h] at hs
  have key : ∀ T : IntType, convert_safe P T F s = convert P T F s.get := fun T =>
    convert_safe_of_valid P T F s hp
  exact ⟨key _, key _, key _, key _, key _, key _, key _, key _, key _, key _⟩

/-- Instance of C12, from the test suite: `to_i8(val) == to_i8(42)` for the valid
`safe_int32` 42. -/
theorem to_functions_eq_convert_witness :
    to_i8_safe ⟨true⟩ (safe_integral.mk 42 false : safe_integral .int32) =
      to_i8 ⟨true⟩ .int32 42 :=
  ((to_functions_eq_convert ⟨true⟩ .int32 42 (safe_integral.mk 42 false)).2.2.2.2.2.2.2.2.2.2
    rfl).1

/-- C13: for `N` in 8, 16, 32, 64 and every integer value `v` (raw, or the stored
value of a `safe_integral`), `to_uN_unsafe(v)` performs no range check: it
returns a valid `safe_integral` whose value is `v` reduced modulo `2 ^ N`; and
`to_u8_unsafe(0xFFFFFFFFFFFFFFFF)` is valid and equals `0xFF`. -/
theorem to_unsafe_truncates (v : Int) (F : IntType) (s : safe_integral F) :
    (( to_u8_unsafe v).valid = true ∧ ( to_u8_unsafe v).get = v % 2 ^ 8) ∧
    (( to_u16_unsafe v).valid = true ∧ ( to_u16_unsafe v).get = v % 2 ^ 16) ∧
    (( to_u32_unsafe v).valid = true ∧ ( to_u32_unsafe v).get = v % 2 ^ 32) ∧
    (( to_u64_unsafe v).valid = true ∧ ( to_u64_unsafe v).get = v % 2 ^ 64) ∧
    (( to_u8_unsafe_safe s).valid = true ∧ ( to_u8_unsafe_safe s).get = s.get % 2 ^ 8) ∧
    (( to_u16_unsafe_safe s).valid = true ∧ ( to_u16_unsafe_safe s).get = s.get % 2 ^ 16) ∧
    (( to_u32_unsafe_safe s).valid = true ∧ ( to_u32_unsafe_safe s).get = s.get % 2 ^ 32) ∧
    (( to_u64_unsafe_safe s).valid = true ∧ ( to_u64_unsafe_safe s).get = s.get % 2 ^ 64) ∧
    ( to_u8_unsafe 0xFFFFFFFFFFFFFFFF) = safe_integral.mk 0xFF false := by
  have e8 := static_cast_unsigned .uint8
  have e16 := static_cast_unsigned .uint16
  have e32 := static_cast_unsigned .uint32
  have e64 := static_cast_unsigned .uint64
  refine ⟨⟨rfl, e8 v rfl⟩, ⟨rfl, e16 v rfl⟩, ⟨rfl, e32 v rfl⟩, ⟨rfl, e64 v rfl⟩,
    ⟨rfl, e8 s.get rfl⟩, ⟨rfl, e16 s.get rfl⟩, ⟨rfl, e32 s.get rfl⟩, ⟨rfl, e64 s.get rfl⟩, ?_⟩
  decide

/-- Refutation of C17 as stated: the poisoned `safe_int32{42, true}` of the
test suite goes through `to_u8_unsafe` to a result that is not poisoned. -/
theorem to_unsafe_poison_counterexample :
    (safe_integral.mk 42 true : safe_integral .int32).poisoned = true ∧
      ( to_u8_unsafe_safe (safe_integral.mk 42 true : safe_integral .int32)).poisoned = false ∧
      ( to_umax_unsafe_safe (safe_integral.mk 42 true : safe_integral .int32)).poisoned =
        false := by
  decide

/-- C17, amended: the unsafe conversions rebuild their result from `val.get()`
alone, so the poison of the source does not reach it: for every poisoned
`safe_integral` `s` of any type, `to_uN_unsafe(s)` for `N` in 8, 16, 32, 64 and
`to_umax_unsafe(s)` are not poisoned and hold `s.get()` reduced modulo `2 ^ N`. -/
theorem to_unsafe_drops_poison (F : IntType) (s : safe_integral F)
    (hs : s.poisoned = true) :
    (( to_u8_unsafe_safe s).poisoned = false ∧ ( to_u8_unsafe_safe s).get = s.get % 2 ^ 8) ∧
    (( to_u16_unsafe_safe s).poisoned = false ∧ ( to_u16_unsafe_safe s).get = s.get % 2 ^ 16) ∧
    (( to_u32_unsafe_safe s).poisoned = false ∧ ( to_u32_unsafe_safe s).get = s.get % 2 ^ 32) ∧
    (( to_u64_unsafe_safe s).poisoned = false ∧ ( to_u64_unsafe_safe s).get = s.get % 2 ^ 64) ∧
    (( to_umax_unsafe_safe s).poisoned = false ∧ ( to_umax_unsafe_safe s).get = s.get % 2 ^ 64) := by
  have _h := hs
  have e8 := static_cast_unsigned .uint8
  have e16 := static_cast_unsigned .uint16
  have e32 := static_cast_unsigned .uint32
  have e64 := static_cast_unsigned .uint64
  have emax := static_cast_unsigned .uintmax
  exact ⟨⟨rfl, e8 s.get rfl⟩, ⟨rfl, e16 s.get rfl⟩, ⟨rfl, e32 s.get rfl⟩, ⟨rfl, e64 s.get rfl⟩,
    ⟨rfl, emax s.get rfl⟩⟩

/-- Instance of the amended C17: the poisoned `safe_int32` holding 300. -/
theorem to_unsafe_drops_poison_witness :
    ( to_u8_unsafe_safe (safe_integral.mk 300 true : safe_integral .int32)).poisoned = false ∧
      ( to_u8_unsafe_safe (safe_integral.mk 300 true : safe_integral .int32)).get = 300 % 2 ^ 8 :=
  (to_unsafe_drops_poison .int32 (safe_integral.mk 300 true) rfl).1

/-! The properties of the upper/lower merge. -/

/-- C14: bit-merge with a lower operand narrower than 64 bits: for a lower type
`uint8`, `uint16` or `uint32` (`N = width T`), every valid 64-bit upper and every
valid `N`-bit lower, `to_umax_upper_lower(upper, lower)` is valid, its low `N`
bits equal `lower`, its remaining high bits equal those of `upper`, and its value
is `(upper AND NOT(2^N - 1)) OR lower`; upper `0xFFFFFFFFFFFFFFFF` with the 8-bit
lower `0x01` gives `0xFFFFFFFFFFFFFF01`. -/
theorem merge_narrow_lower (P : Platform) (T : IntType)
    (upper : safe_integral .uintmax) (lower : safe_integral T)
    (hT : T = .uint8 ∨ T = .uint16 ∨ T = .uint32)
    (hu : upper.valid = true) (huv : is_value .uintmax upper.get)
    (hl : lower.valid = true) (hlv : is_value T lower.get) :
    (to_umax_upper_lower P upper lower).valid = true ∧
    (to_umax_upper_lower P upper lower).get % 2 ^ width T = lower.get ∧
    (to_umax_upper_lower P upper lower).get / 2 ^ width T = upper.get / 2 ^ width T ∧
    (to_umax_upper_lower P upper lower).get =
      ((upper.get.toNat &&& (2 ^ 64 - 1 - (2 ^ width T - 1))) ||| lower.get.toNat : Nat) ∧
    to_umax_upper_lower P (safe_integral.mk 0xFFFFFFFFFFFFFFFF false)
      (safe_integral.mk 0x01 false : safe_integral .uint8) =
        safe_integral.mk 0xFFFFFFFFFFFFFF01 false := by
  have hup := poisoned_of_valid upper hu
  have hlp := poisoned_of_valid lower hl
  have hs : is_signed T = false := by
    rcases hT with rfl | rfl | rfl <;> rfl
  have hw : width T ≤ 64 := by
    rcases hT with rfl | rfl | rfl <;> decide
  have hlt : lower.value < 2 ^ width T := by
    have := hlv.2
    rcases hT with rfl | rfl | rfl <;>
      simp only [safe_integral.get, numeric_limits_max] at this <;>
      simp only [width] <;> omega
  have hl0 : 0 ≤ lower.value := by
    have := hlv.1
    rw [unsigned_min_eq T hs] at this
    exact this
  have hto : to_umax_safe P lower = safe_integral.mk lower.value false := by
    unfold to_umax_safe
    rw [convert_safe_of_valid P _ T lower hlp,
      convert_of_is_value P _ T lower.value hlv (is_value_uintmax_of_unsigned T _ hs hlv)]
  obtain ⟨e₁, e₂⟩ := masked_merge (width T) hw upper (safe_integral.mk lower.value false) huv hl0 hlt
  have key := to_umax_upper_lower_narrow P T upper lower hT
  rw [hto] at key
  have hm : (2 : Nat) ^ 64 - 1 - (2 ^ width T - 1) = 2 ^ 64 - 2 ^ width T := by
    have := Nat.two_pow_pos (width T)
    omega
  refine ⟨?_, ?_, ?_, ?_, ?_⟩
  · rw [key, e₁]
    simp [safe_integral.valid, hup]
  · rw [key, e₁]
    simp only [safe_integral.get]
    rw [Int.add_comm, Int.add_mul_emod_self_left]
    exact Int.emod_eq_of_lt hl0 hlt
  · rw [key, e₁]
    simp only [safe_integral.get]
    have hp : (0 : Int) < 2 ^ width T := by positivity
    rw [Int.add_comm, Int.add_mul_ediv_left _ _ (ne_of_gt hp), Int.ediv_eq_zero_of_lt hl0 hlt]
    simp
  · rw [key, e₂, hm]
    rfl
  · obtain ⟨b⟩ := P
    cases b <;> decide

/-- Instance of C14, from the test suite: upper `0xFFFFFFFFFFFFFFFF` merged with
the 16-bit lower `0x0123`. -/
theorem merge_narrow_lower_witness :
    (to_umax_upper_lower ⟨true⟩ (safe_integral.mk 0xFFFFFFFFFFFFFFFF false)
        (safe_integral.mk 0x0123 false : safe_integral .uint16)).valid = true ∧
      (to_umax_upper_lower ⟨true⟩ (safe_integral.mk 0xFFFFFFFFFFFFFFFF false)
        (safe_integral.mk 0x0123 false : safe_integral .uint16)).get % 2 ^ width .uint16 =
          0x0123 :=
  ⟨(merge_narrow_lower ⟨true⟩ .uint16 (safe_integral.mk 0xFFFFFFFFFFFFFFFF false)
      (safe_integral.mk 0x0123 false) (Or.inr (Or.inl rfl)) rfl (by decide) rfl (by decide)).1,
   (merge_narrow_lower ⟨true⟩ .uint16 (safe_integral.mk 0xFFFFFFFFFFFFFFFF false)
      (safe_integral.mk 0x0123 false) (Or.inr (Or.inl rfl)) rfl (by decide) rfl (by decide)).2.1⟩

/-- C15: bit-merge with a full-width lower operand: for every upper (valid or
not, whatever it stores) and every valid 64-bit unsigned lower,
`to_umax_upper_lower(upper, lower)` equals `lower` exactly, and no bit of `upper`
appears in the result: any other upper gives the same result. -/
theorem merge_full_width_lower (P : Platform) (T : IntType)
    (upper other : safe_integral .uintmax) (lower : safe_integral T)
    (hT : is_same P T .uint64 = true) (hl : lower.valid = true) :
    (to_umax_upper_lower P upper lower).valid = true ∧
      (to_umax_upper_lower P upper lower).get = lower.get ∧
      to_umax_upper_lower P upper lower = to_umax_upper_lower P other lower := by
  have hp := poisoned_of_valid lower hl
  rw [to_umax_upper_lower_full P T upper lower hT, to_umax_upper_lower_full P T other lower hT]
  refine ⟨?_, rfl, rfl⟩
  simp [safe_integral.valid, hp]

/-- Instance of C15, from the test suite: upper `0xFFFFFFFFFFFFFFFF` and the
`uintmax` lower `0x0123456789ABCDEF`, where `uintmax` is `uint64`. -/
theorem merge_full_width_lower_witness :
    is_same ⟨true⟩ .uintmax .uint64 = true ∧
      (to_umax_upper_lower ⟨true⟩ (safe_integral.mk 0xFFFFFFFFFFFFFFFF false)
        (safe_integral.mk 0x0123456789ABCDEF false : safe_integral .uintmax)).get =
          0x0123456789ABCDEF :=
  ⟨by decide,
    (merge_full_width_lower ⟨true⟩ .uintmax (safe_integral.mk 0xFFFFFFFFFFFFFFFF false)
      (safe_integral.mk 0 false) (safe_integral.mk 0x0123456789ABCDEF false)
      (by decide) rfl).2.1⟩

/-- C16: the four overloads of `to_umax_upper_lower` agree: for every raw upper
`u` and every raw lower `l` of a type `T`, the calls on (`safe_integral` `u`,
`safe_integral` `l`), (raw `u`, `safe_integral` `l`), (`safe_integral` `u`, raw
`l`) and (raw `u`, raw `l`) return the same result, value and validity, a raw
operand being wrapped as a valid `safe_integral`. -/
theorem merge_overloads_agree (P : Platform) (T : IntType) (u l : Int) :
    to_umax_upper_lower_raw_safe P u (safe_integral.mk l false : safe_integral T) =
        to_umax_upper_lower P (safe_integral.mk u false)
          (safe_integral.mk l false : safe_integral T) ∧
      to_umax_upper_lower_safe_raw P T (safe_integral.mk u false) l =
        to_umax_upper_lower P (safe_integral.mk u false)
          (safe_integral.mk l false : safe_integral T) ∧
      to_umax_upper_lower_raw_raw P T u l =
        to_umax_upper_lower P (safe_integral.mk u false)
          (safe_integral.mk l false : safe_integral T) ∧
      (to_umax_upper_lower_raw_raw P T u l).get =
        (to_umax_upper_lower P (safe_integral.mk u false)
          (safe_integral.mk l false : safe_integral T)).get ∧
      (to_umax_upper_lower_raw_raw P T u l).valid =
        (to_umax_upper_lower P (safe_integral.mk u false)
          (safe_integral.mk l false : safe_integral T)).valid :=
  ⟨rfl, rfl, rfl, rfl, rfl⟩

/-- C18 on the code: with a 64-bit lower the merge returns `lower` and drops the
poison of `upper`: `safe_uintmax::failure()` merged with the valid `uint64`
`0x0123456789ABCDEF` is valid, while the same poisoned upper merged with a valid
8-bit lower is poisoned. -/
theorem merge_full_width_drops_upper_poison :
    (safe_integral.failure .uintmax).poisoned = true ∧
      to_umax_upper_lower ⟨true⟩ (safe_integral.failure .uintmax)
        (safe_integral.mk 0x0123456789ABCDEF false : safe_integral .uint64) =
          safe_integral.mk 0x0123456789ABCDEF false ∧
      to_umax_upper_lower ⟨false⟩ (safe_integral.failure .uintmax)
        (safe_integral.mk 0x0123456789ABCDEF false : safe_integral .uint64) =
          safe_integral.mk 0x0123456789ABCDEF false ∧
      (to_umax_upper_lower ⟨true⟩ (safe_integral.failure .uintmax)
        (safe_integral.mk 0x01 false : safe_integral .uint8)).poisoned = true := by
  decide

/-- C20: decimal unsigned literals: for each unsigned destination of width `N`
in 8, 16, 32, 64 (and `uintmax`) and every text of decimal digits that denotes an
integer `n <= 2^N - 1`, the literal operator (`_u8`, `_u16`, `_u32`, `_u64`,
`_umax`) returns a valid `safe_integral` equal to `n`; in particular `0` gives
`min()` and the decimal text of `2^N - 1` gives `max()`. -/
theorem unsigned_decimal_literals (P : Platform) (str : List Char)
    (hd : is_decimal_text str) :
    (decimal_value str ≤ 2 ^ 8 - 1 →
      (operator_u8 P str).valid = true ∧ (operator_u8 P str).get = decimal_value str) ∧
    (decimal_value str ≤ 2 ^ 16 - 1 →
      (operator_u16 P str).valid = true ∧ (operator_u16 P str).get = decimal_value str) ∧
    (decimal_value str ≤ 2 ^ 32 - 1 →
      (operator_u32 P str).valid = true ∧ (operator_u32 P str).get = decimal_value str) ∧
    (decimal_value str ≤ 2 ^ 64 - 1 →
      (operator_u64 P str).valid = true ∧ (operator_u64 P str).get = decimal_value str) ∧
    (decimal_value str ≤ 2 ^ 64 - 1 →
      (operator_umax P str).valid = true ∧ (operator_umax P str).get = decimal_value str) ∧
    operator_u8 P "0".toList = safe_integral.min .uint8 ∧
    operator_u16 P "0".toList = safe_integral.min .uint16 ∧
    operator_u32 P "0".toList = safe_integral.min .uint32 ∧
    operator_u64 P "0".toList = safe_integral.min .uint64 ∧
    operator_umax P "0".toList = safe_integral.min .uintmax ∧
    operator_u8 P "255".toList = safe_integral.max .uint8 ∧
    operator_u16 P "65535".toList = safe_integral.max .uint16 ∧
    operator_u32 P "4294967295".toList = safe_integral.max .uint32 ∧
    operator_u64 P "18446744073709551615".toList = safe_integral.max .uint64 ∧
    operator_umax P "18446744073709551615".toList = safe_integral.max .uintmax := by
  have key : ∀ T : IntType, is_signed T = false → decimal_value str ≤ numeric_limits_max T →
      (unsigned_literal P T str).valid = true ∧
        (unsigned_literal P T str).get = decimal_value str := by
    intro T hT hn
    rw [unsigned_literal_decimal P T str hT hd hn]
    exact ⟨rfl, rfl⟩
  refine ⟨fun h => key .uint8 rfl (by simpa [numeric_limits_max] using h),
    fun h => key .uint16 rfl (by simpa [numeric_limits_max] using h),
    fun h => key .uint32 rfl (by simpa [numeric_limits_max] using h),
    fun h => key .uint64 rfl (by simpa [numeric_limits_max] using h),
    fun h => key .uintmax rfl (by simpa [numeric_limits_max] using h), ?_⟩
  obtain ⟨b⟩ := P
  cases b <;> decide

/-- Instance of C20: the text `200` read by `_u8`. -/
theorem unsigned_decimal_literals_witness :
    is_decimal_text "200".toList ∧ decimal_value "200".toList ≤ 2 ^ 8 - 1 ∧
      ((operator_u8 ⟨true⟩ "200".toList).valid = true ∧
        (operator_u8 ⟨true⟩ "200".toList).get = decimal_value "200".toList) :=
  ⟨by decide, by decide,
    (unsigned_decimal_literals ⟨true⟩ "200".toList (by decide)).1 (by decide)⟩

/-- C21: out-of-range literals are rejected: for each destination type `T` and
every text of decimal digits denoting an integer greater than `max(T)`, the
literal operator for `T`, evaluated at run time, returns an invalid
`safe_integral<T>` (it is `failure()`), never a wrapped value marked valid; the
text `256` read by `_u8` is invalid. -/
theorem literal_out_of_range (P : Platform) (str : List Char) (hd : is_decimal_text str) :
    (numeric_limits_max .uint8 < decimal_value str →
      (operator_u8 P str).invalid = true ∧ operator_u8 P str = safe_integral.failure .uint8) ∧
    (numeric_limits_max .uint16 < decimal_value str →
      (operator_u16 P str).invalid = true ∧ operator_u16 P str = safe_integral.failure .uint16) ∧
    (numeric_limits_max .uint32 < decimal_value str →
      (operator_u32 P str).invalid = true ∧ operator_u32 P str = safe_integral.failure .uint32) ∧
    (numeric_limits_max .uint64 < decimal_value str →
      (operator_u64 P str).invalid = true ∧ operator_u64 P str = safe_integral.failure .uint64) ∧
    (numeric_limits_max .uintmax < decimal_value str →
      (operator_umax P str).invalid = true ∧ operator_umax P str = safe_integral.failure .uintmax) ∧
    (numeric_limits_max .int8 < decimal_value str →
      (operator_i8 P str).invalid = true ∧ operator_i8 P str = safe_integral.failure .int8) ∧
    (numeric_limits_max .int16 < decimal_value str →
      (operator_i16 P str).invalid = true ∧ operator_i16 P str = safe_integral.failure .int16) ∧
    (numeric_limits_max .int32 < decimal_value str →
      (operator_i32 P str).invalid = true ∧ operator_i32 P str = safe_integral.failure .int32) ∧
    (numeric_limits_max .int64 < decimal_value str →
      (operator_i64 P str).invalid = true ∧ operator_i64 P str = safe_integral.failure .int64) ∧
    (numeric_limits_max .intmax < decimal_value str →
      (operator_imax P str).invalid = true ∧ operator_imax P str = safe_integral.failure .intmax) ∧
    (operator_u8 P "256".toList).invalid = true := by
  have hlen : ∀ s : List Char, is_decimal_text s →
      starts_with s "0x".toList = false := not_starts_with_0x
  have ku : ∀ T : IntType, numeric_limits_max T < decimal_value str →
      (unsigned_literal P T str).invalid = true ∧
        unsigned_literal P T str = safe_integral.failure T := by
    intro T h
    have e : unsigned_literal P T str = safe_integral.failure T := by
      unfold unsigned_literal
      simp only []
      rw [hlen str hd, base10_eq P]
      simp only [Bool.false_eq_true, if_false]
      rw [from_chars_decimal T str hd, if_neg (by omega)]
    rw [e]
    exact ⟨rfl, rfl⟩
  have ks : ∀ T : IntType, numeric_limits_max T < decimal_value str →
      (signed_literal P T str).invalid = true ∧
        signed_literal P T str = safe_integral.failure T := by
    intro T h
    have e : signed_literal P T str = safe_integral.failure T := by
      rw [signed_literal_eq P T str, from_chars_decimal T str hd, if_neg (by omega)]
    rw [e]
    exact ⟨rfl, rfl⟩
  refine ⟨ku _, ku _, ku _, ku _, ku _, ks _, ks _, ks _, ks _, ks _, ?_⟩
  obtain ⟨b⟩ := P
  cases b <;> decide

/-- Instance of C21: the text `300` read by `_u8` and by `_i8`. -/
theorem literal_out_of_range_witness :
    is_decimal_text "300".toList ∧
      (operator_u8 ⟨true⟩ "300".toList).invalid = true ∧
      (operator_i8 ⟨true⟩ "300".toList).invalid = true :=
  ⟨by decide,
    ((literal_out_of_range ⟨true⟩ "300".toList (by decide)).1 (by decide)).1,
    ((literal_out_of_range ⟨true⟩ "300".toList (by decide)).2.2.2.2.2.1 (by decide)).1⟩

/-- C22: hexadecimal unsigned literals: for each unsigned destination of width
`N` and every text made of the prefix `0x` followed by a non-empty sequence of
hexadecimal digits denoting an integer `n <= 2^N - 1`, the literal operator
returns a valid `safe_integral` equal to `n`; in particular `0x0` gives `min()`
and `0xFF`, `0xFFFF`, `0xFFFFFFFF`, `0xFFFFFFFFFFFFFFFF` give `max()` of `uint8`,
`uint16`, `uint32`, `uint64`.  The length of the text is a `uintmax`, as the
length of every `string_view` is. -/
theorem unsigned_hex_literals (P : Platform) (digits : List Char)
    (hh : is_hex_text digits)
    (hlen : (('0' :: 'x' :: digits).length : Int) ≤ numeric_limits_max .uintmax) :
    (hex_value digits ≤ 2 ^ 8 - 1 →
      (operator_u8 P ('0' :: 'x' :: digits)).valid = true ∧
        (operator_u8 P ('0' :: 'x' :: digits)).get = hex_value digits) ∧
    (hex_value digits ≤ 2 ^ 16 - 1 →
      (operator_u16 P ('0' :: 'x' :: digits)).valid = true ∧
        (operator_u16 P ('0' :: 'x' :: digits)).get = hex_value digits) ∧
    (hex_value digits ≤ 2 ^ 32 - 1 →
      (operator_u32 P ('0' :: 'x' :: digits)).valid = true ∧
        (operator_u32 P ('0' :: 'x' :: digits)).get = hex_value digits) ∧
    (hex_value digits ≤ 2 ^ 64 - 1 →
      (operator_u64 P ('0' :: 'x' :: digits)).valid = true ∧
        (operator_u64 P ('0' :: 'x' :: digits)).get = hex_value digits) ∧
    (hex_value digits ≤ 2 ^ 64 - 1 →
      (operator_umax P ('0' :: 'x' :: digits)).valid = true ∧
        (operator_umax P ('0' :: 'x' :: digits)).get = hex_value digits) ∧
    operator_u8 P "0x0".toList = safe_integral.min .uint8 ∧
    operator_u16 P "0x0".toList = safe_integral.min .uint16 ∧
    operator_u32 P "0x0".toList = safe_integral.min .uint32 ∧
    operator_u64 P "0x0".toList = safe_integral.min .uint64 ∧
    operator_umax P "0x0".toList = safe_integral.min .uintmax ∧
    operator_u8 P "0xFF".toList = safe_integral.max .uint8 ∧
    operator_u16 P "0xFFFF".toList = safe_integral.max .uint16 ∧
    operator_u32 P "0xFFFFFFFF".toList = safe_integral.max .uint32 ∧
    operator_u64 P "0xFFFFFFFFFFFFFFFF".toList = safe_integral.max .uint64 ∧
    operator_umax P "0xFFFFFFFFFFFFFFFF".toList = safe_integral.max .uintmax := by
  have key : ∀ T : IntType, hex_value digits ≤ numeric_limits_max T →
      (unsigned_literal P T ('0' :: 'x' :: digits)).valid = true ∧
        (unsigned_literal P T ('0' :: 'x' :: digits)).get = hex_value digits := by
    intro T hn
    have hs : starts_with ('0' :: 'x' :: digits) "0x".toList = true := by
      show List.isPrefixOf ['0', 'x'] ('0' :: 'x' :: digits) = true
      simp [List.isPrefixOf]
    rw [unsigned_literal_eq P T _ hlen, if_pos hs]
    show (from_chars T digits _).valid = true ∧ (from_chars T digits _).get = _
    rw [from_chars_hex T digits hh, if_pos hn]
    exact ⟨rfl, rfl⟩
  refine ⟨fun h => key .uint8 (by simpa [numeric_limits_max] using h),
    fun h => key .uint16 (by simpa [numeric_limits_max] using h),
    fun h => key .uint32 (by simpa [numeric_limits_max] using h),
    fun h => key .uint64 (by simpa [numeric_limits_max] using h),
    fun h => key .uintmax (by simpa [numeric_limits_max] using h), ?_⟩
  obtain ⟨b⟩ := P
  cases b <;> decide

/-- Instance of C22: the text `0x7f` read by `_u8`. -/
theorem unsigned_hex_literals_witness :
    is_hex_text "7f".toList ∧ hex_value "7f".toList ≤ 2 ^ 8 - 1 ∧
      ((operator_u8 ⟨true⟩ "0x7f".toList).valid = true ∧
        (operator_u8 ⟨true⟩ "0x7f".toList).get = 127) :=
  ⟨by decide, by decide,
    (unsigned_hex_literals ⟨true⟩ "7f".toList (by decide) (by decide)).1 (by decide)⟩

/-- C23: signed literals reach both extremes: for each signed destination `T`
(`int8`, `int16`, `int32`, `int64`, `intmax`), the decimal text of `max(T)` read
by the literal operator for `T` is valid and equals `max(T)`, and negating that
literal and then subtracting the literal 1 yields the valid `min(T)`, as in
`-127_i8 - 1_i8 == safe_int8::min()`. -/
theorem signed_literal_extremes (P : Platform) :
    (operator_i8 P "127".toList = safe_integral.max .int8 ∧
      (operator_i8 P "127".toList).valid = true ∧
      operator_sub (operator_neg (operator_i8 P "127".toList)) (operator_i8 P "1".toList) =
        safe_integral.min .int8) ∧
    (operator_i16 P "32767".toList = safe_integral.max .int16 ∧
      (operator_i16 P "32767".toList).valid = true ∧
      operator_sub (operator_neg (operator_i16 P "32767".toList)) (operator_i16 P "1".toList) =
        safe_integral.min .int16) ∧
    (operator_i32 P "2147483647".toList = safe_integral.max .int32 ∧
      (operator_i32 P "2147483647".toList).valid = true ∧
      operator_sub (operator_neg (operator_i32 P "2147483647".toList)) (operator_i32 P "1".toList) =
        safe_integral.min .int32) ∧
    (operator_i64 P "9223372036854775807".toList = safe_integral.max .int64 ∧
      (operator_i64 P "9223372036854775807".toList).valid = true ∧
      operator_sub (operator_neg (operator_i64 P "9223372036854775807".toList)) (operator_i64 P "1".toList) =
        safe_integral.min .int64) ∧
    (operator_imax P "9223372036854775807".toList = safe_integral.max .intmax ∧
      (operator_imax P "9223372036854775807".toList).valid = true ∧
      operator_sub (operator_neg (operator_imax P "9223372036854775807".toList)) (operator_imax P "1".toList) =
        safe_integral.min .intmax) := by
  obtain ⟨b⟩ := P
  cases b <;> decide

/-- C28: base selection of the literal operators: each unsigned literal operator
(`_u8`, `_u16`, `_u32`, `_u64`, `_umax`) hands the text that follows the first
two characters to `from_chars` with base 16 exactly when the text starts with
the two characters `0x`, and otherwise hands the whole text with base 10; each
signed literal operator (`_i8`, `_i16`, `_i32`, `_i64`, `_imax`) always hands the
whole text with base 10, so `0x10` is 16 for `_u8` and is not 16 for `_i8`. -/
theorem literal_base_selection (P : Platform) (str : List Char)
    (hlen : (str.length : Int) ≤ numeric_limits_max .uintmax) :
    operator_u8 P str =
      (if starts_with str "0x".toList = true then
        from_chars .uint8 (str.drop 2) (safe_integral.mk 16 false)
      else from_chars .uint8 str (safe_integral.mk 10 false)) ∧
    operator_u16 P str =
      (if starts_with str "0x".toList = true then
        from_chars .uint16 (str.drop 2) (safe_integral.mk 16 false)
      else from_chars .uint16 str (safe_integral.mk 10 false)) ∧
    operator_u32 P str =
      (if starts_with str "0x".toList = true then
        from_chars .uint32 (str.drop 2) (safe_integral.mk 16 false)
      else from_chars .uint32 str (safe_integral.mk 10 false)) ∧
    operator_u64 P str =
      (if starts_with str "0x".toList = true then
        from_chars .uint64 (str.drop 2) (safe_integral.mk 16 false)
      else from_chars .uint64 str (safe_integral.mk 10 false)) ∧
    operator_umax P str =
      (if starts_with str "0x".toList = true then
        from_chars .uintmax (str.drop 2) (safe_integral.mk 16 false)
      else from_chars .uintmax str (safe_integral.mk 10 false)) ∧
    operator_i8 P str = from_chars .int8 str (safe_integral.mk 10 false) ∧
    operator_i16 P str = from_chars .int16 str (safe_integral.mk 10 false) ∧
    operator_i32 P str = from_chars .int32 str (safe_integral.mk 10 false) ∧
    operator_i64 P str = from_chars .int64 str (safe_integral.mk 10 false) ∧
    operator_imax P str = from_chars .intmax str (safe_integral.mk 10 false) ∧
    operator_u8 P "0x10".toList = safe_integral.mk 16 false ∧
    operator_i8 P "0x10".toList ≠ safe_integral.mk 16 false := by
  refine ⟨unsigned_literal_eq P _ str hlen, unsigned_literal_eq P _ str hlen,
    unsigned_literal_eq P _ str hlen, unsigned_literal_eq P _ str hlen,
    unsigned_literal_eq P _ str hlen, signed_literal_eq P _ str, signed_literal_eq P _ str,
    signed_literal_eq P _ str, signed_literal_eq P _ str, signed_literal_eq P _ str, ?_⟩
  obtain ⟨b⟩ := P
  cases b <;> decide

/-- Instance of C28: the text `0x1F` read by `_u16` and by `_i16`. -/
theorem literal_base_selection_witness :
    operator_u16 ⟨true⟩ "0x1F".toList =
        from_chars .uint16 "1F".toList (safe_integral.mk 16 false) ∧
      operator_i16 ⟨true⟩ "0x1F".toList =
        from_chars .int16 "0x1F".toList (safe_integral.mk 10 false) :=
  ⟨(literal_base_selection ⟨true⟩ "0x1F".toList (by decide)).2.1,
   (literal_base_selection ⟨true⟩ "0x1F".toList (by decide)).2.2.2.2.2.2.1⟩

/-! The properties of the operators of `safe_integral`. -/

/-- C24: poison stickiness of the operators: for every type `T`, every poisoned
`safe_integral<T>` `a` and every `safe_integral<T>` `b` (valid, or a raw `T`
wrapped as a valid one), the result of each binary arithmetic and bitwise
operator (`+`, `-`, `*`, `/`, `%`, `&`, `|`, `^`, `<<`, `>>`) applied to `a` and
`b` in either order is invalid, and so is the result of each unary operator
(`-`, `~`) applied to `a`. -/
theorem operators_poison_sticky (T : IntType) (a b : safe_integral T)
    (ha : a.invalid = true) (hb : b.valid = true) :
    ((operator_add a b).invalid = true ∧ (operator_add b a).invalid = true) ∧
    ((operator_sub a b).invalid = true ∧ (operator_sub b a).invalid = true) ∧
    ((operator_mul a b).invalid = true ∧ (operator_mul b a).invalid = true) ∧
    ((operator_div a b).invalid = true ∧ (operator_div b a).invalid = true) ∧
    ((operator_mod a b).invalid = true ∧ (operator_mod b a).invalid = true) ∧
    ((operator_and a b).invalid = true ∧ (operator_and b a).invalid = true) ∧
    ((operator_or a b).invalid = true ∧ (operator_or b a).invalid = true) ∧
    ((operator_xor a b).invalid = true ∧ (operator_xor b a).invalid = true) ∧
    ((operator_shl a b).invalid = true ∧ (operator_shl b a).invalid = true) ∧
    ((operator_shr a b).invalid = true ∧ (operator_shr b a).invalid = true) ∧
    (operator_neg a).invalid = true ∧ (operator_not a).invalid = true := by
  have hp : a.poisoned = true := ha
  have _hq := poisoned_of_valid b hb
  have l : ∀ x : Bool, (a.poisoned || x) = true := fun x => by simp [hp]
  have r : ∀ x : Bool, (x || a.poisoned) = true := fun x => by simp [hp]
  have c := checked_result_poisoned T
  refine ⟨⟨?_, ?_⟩, ⟨?_, ?_⟩, ⟨?_, ?_⟩, ⟨?_, ?_⟩, ⟨?_, ?_⟩, ⟨?_, ?_⟩, ⟨?_, ?_⟩, ⟨?_, ?_⟩,
    ⟨?_, ?_⟩, ⟨?_, ?_⟩, ?_, ?_⟩
  all_goals
    simp only [safe_integral.invalid, operator_add, operator_sub, operator_mul, operator_div,
      operator_mod, operator_and, operator_or, operator_xor, operator_shl, operator_shr,
      operator_neg, operator_not, l, r, c, hp, Bool.or_true, Bool.true_or]
  all_goals first
    | rfl
    | (split_ifs <;> rfl)

/-- Instance of C24: the poisoned `safe_int32{42, true}` and the valid 7. -/
theorem operators_poison_sticky_witness :
    (operator_add (safe_integral.mk 42 true : safe_integral .int32)
        (safe_integral.mk 7 false)).invalid = true ∧
      (operator_shr (safe_integral.mk 7 false : safe_integral .int32)
        (safe_integral.mk 42 true)).invalid = true :=
  ⟨(operators_poison_sticky .int32 (safe_integral.mk 42 true) (safe_integral.mk 7 false)
      rfl rfl).1.1,
   (operators_poison_sticky .int32 (safe_integral.mk 42 true) (safe_integral.mk 7 false)
      rfl rfl).2.2.2.2.2.2.2.2.2.1.2⟩

/-- C25: for every type `T` and every `safe_integral<T>` `a` (valid or not),
`a / 0` and `a % 0` are defined and return an invalid `safe_integral<T>`
(`failure()`), whether the zero divisor is a raw 0, a valid `safe_integral` or a
poisoned one; division and modulo are total functions of the embedding. -/
theorem division_by_zero_invalid (T : IntType) (a : safe_integral T) (p : Bool) :
    (operator_div a (safe_integral.mk 0 p)).invalid = true ∧
      (operator_mod a (safe_integral.mk 0 p)).invalid = true ∧
      operator_div a (safe_integral.mk 0 p) = safe_integral.failure T ∧
      operator_mod a (safe_integral.mk 0 p) = safe_integral.failure T := by
  have d : operator_div a (safe_integral.mk 0 p) = safe_integral.failure T := by
    unfold operator_div
    exact checked_result_undefined T _ _
  have m : operator_mod a (safe_integral.mk 0 p) = safe_integral.failure T := by
    unfold operator_mod
    exact checked_result_undefined T _ _
  rw [d, m]
  exact ⟨rfl, rfl, rfl, rfl⟩

/-- C26: for every signed type `T`, negating `safe_integral<T>::min()` yields an
invalid result (for `int8`, `-(-128)` is invalid), while negating any other
valid value `v` yields a valid result equal to `-v`. -/
theorem negation_of_signed (T : IntType) (v : Int)
    (hT : is_signed T = true) (hv : is_value T v) (hne : v ≠ numeric_limits_min T) :
    (operator_neg (safe_integral.min T)).invalid = true ∧
      (operator_neg (safe_integral.mk v false : safe_integral T)).valid = true ∧
      (operator_neg (safe_integral.mk v false : safe_integral T)).get = -v ∧
      (operator_neg (safe_integral.mk (-128) false : safe_integral .int8)).invalid = true := by
  have m := signed_min_eq T hT
  obtain ⟨hv₁, hv₂⟩ := hv
  have hmin : ¬ is_value T (-numeric_limits_min T) := by
    rintro ⟨_, h⟩
    omega
  have hneg : is_value T (-v) := ⟨by omega, by omega⟩
  refine ⟨?_, ?_, ?_, by decide⟩
  · simp [operator_neg, safe_integral.min, checked_result, hmin, safe_integral.invalid,
      safe_integral.failure]
  · simp [operator_neg, checked_result, hneg, safe_integral.valid]
  · simp [operator_neg, checked_result, hneg, safe_integral.get]

/-- Instance of C26: negating the `int8` value -127. -/
theorem negation_of_signed_witness :
    (operator_neg (safe_integral.mk (-127) false : safe_integral .int8)).valid = true ∧
      (operator_neg (safe_integral.mk (-127) false : safe_integral .int8)).get = 127 :=
  ⟨(negation_of_signed .int8 (-127) rfl (by decide) (by decide)).2.1,
   (negation_of_signed .int8 (-127) rfl (by decide) (by decide)).2.2.1⟩

/-! The properties of the constraint, the casts and constant evaluation. -/

/-- Refutation of C27 as stated: with a lower operand of the signed type `int8`
no overload of `to_umax_upper_lower` exists, so the call returns nothing, and
in particular not `safe_uintmax::failure()`. -/
theorem merge_signed_lower_counterexample :
    is_signed .int8 = true ∧
      to_umax_upper_lower_overload ⟨true⟩ (safe_integral.mk 0 false)
        (safe_integral.mk 1 false : safe_integral .int8) = none ∧
      to_umax_upper_lower_overload ⟨true⟩ (safe_integral.mk 0 false)
        (safe_integral.mk 1 false : safe_integral .int8) ≠
          some (safe_integral.failure .uintmax) := by
  decide

/-- C27, amended: `to_umax_upper_lower` fails deterministically for an unsigned
lower type that is none of `uint8`, `uint16`, `uint32`, `uint64`: it returns
`safe_uintmax::failure()`, a poisoned value, for every upper and lower.  A signed
lower type never reaches the body: the overloads exist only for
`is_unsigned<T>`, so such a call is rejected when it is compiled. -/
theorem merge_unsupported_lower (P : Platform) (T : IntType)
    (upper : safe_integral .uintmax) (lower : safe_integral T) :
    (is_unsigned T = true →
      (is_same P T .uint8 = false ∧ is_same P T .uint16 = false ∧
        is_same P T .uint32 = false ∧ is_same P T .uint64 = false) →
      to_umax_upper_lower_overload P upper lower = some (safe_integral.failure .uintmax) ∧
        (safe_integral.failure .uintmax).poisoned = true) ∧
    (is_signed T = true → to_umax_upper_lower_overload P upper lower = none) := by
  constructor
  · rintro hu ⟨h₈, h₁₆, h₃₂, h₆₄⟩
    refine ⟨?_, rfl⟩
    simp [to_umax_upper_lower_overload, hu, to_umax_upper_lower, h₈, h₁₆, h₃₂, h₆₄]
  · intro hs
    simp [to_umax_upper_lower_overload, is_unsigned, hs]

/-- Instances of the amended C27: a `uintmax` lower where `uintmax` is not
`uint64`, and a lower of the signed type `int32`. -/
theorem merge_unsupported_lower_witness :
    to_umax_upper_lower_overload ⟨false⟩ (safe_integral.mk 7 false)
        (safe_integral.mk 5 false : safe_integral .uintmax) =
          some (safe_integral.failure .uintmax) ∧
      to_umax_upper_lower_overload ⟨true⟩ (safe_integral.mk 7 false)
        (safe_integral.mk 5 false : safe_integral .int32) = none :=
  ⟨((merge_unsupported_lower ⟨false⟩ .uintmax (safe_integral.mk 7 false)
      (safe_integral.mk 5 false)).1 rfl (by decide)).1,
   (merge_unsupported_lower ⟨true⟩ .int32 (safe_integral.mk 7 false)
      (safe_integral.mk 5 false)).2 rfl⟩

/-- C29: no range comparison inside `convert` wraps: on every value `val` of
`F`, each cast of `val`, of 0, of `T`'s limits or of `F`'s maximum to `intmax` or
to `uintmax` that is evaluated on the path taken preserves the mathematical
value of what is cast; `val` is cast to `uintmax` only when it is not negative
(in the signed-to-unsigned branch, after the test `val < 0`), and `T`'s minimum
is only ever cast to `intmax`.  The traced function is `convert` itself. -/
theorem convert_casts_preserve (P : Platform) (T F : IntType) (val : Int)
    (h : is_value F val) :
    (convert_traced P T F val).1 = convert P T F val ∧
      (∀ c ∈ (convert_traced P T F val).2,
        static_cast c.1 (c.2.value T F val) = c.2.value T F val) ∧
      (∀ c ∈ (convert_traced P T F val).2, c.2 = CastOperand.t_min → c.1 = IntType.intmax) ∧
      ((IntType.uintmax, CastOperand.val) ∈ (convert_traced P T F val).2 → 0 ≤ val) :=
  ⟨convert_traced_fst P T F val, convert_traced_snd P T F val h⟩

/-- Instance of C29, from the test suite: the `uintmax` maximum converted to
`int64`; the cast of `val` to `uintmax` is on the path and keeps its value. -/
theorem convert_casts_preserve_witness :
    is_value .uintmax 18446744073709551615 ∧
      (IntType.uintmax, CastOperand.val) ∈
        (convert_traced ⟨true⟩ .int64 .uintmax 18446744073709551615).2 ∧
      static_cast .uintmax 18446744073709551615 = 18446744073709551615 :=
  ⟨by decide, by decide,
    (convert_casts_preserve ⟨true⟩ .int64 .uintmax 18446744073709551615 (by decide)).2.1
      (IntType.uintmax, CastOperand.val) (by decide)⟩

/-- Refutation of C30 as stated: the unsigned 32-bit value 200 converted to
`int8` gives `failure()` at run time and no value at all in a constant-evaluated
context, where the call of the narrowing hook is rejected. -/
theorem constant_evaluation_counterexample :
    convert_evaluated false ⟨true⟩ .int8 .uint32 200 = some (safe_integral.failure .int8) ∧
      convert_evaluated true ⟨true⟩ .int8 .uint32 200 = none := by
  decide

/-- C30, amended: compile-time and run-time evaluation agree wherever constant
evaluation yields a value.  At run time `convert<T>` (both overloads) and
`to_umax_upper_lower` always yield their result.  In a constant-evaluated
context they yield the same result, flag and stored value, whenever they yield
one: that is so for every raw value the conversion accepts and for a poisoned
`safe_integral` source; on a raw value the conversion rejects, and on the failure
path of `to_umax_upper_lower`, constant evaluation reaches a function that is
not `constexpr` and yields nothing. -/
theorem constant_evaluation_agrees (P : Platform) (T F : IntType) (val : Int)
    (s : safe_integral F) (upper : safe_integral .uintmax) (lower : safe_integral T) :
    (convert_evaluated false P T F val = some (convert P T F val) ∧
      convert_safe_evaluated false P T F s = some (convert_safe P T F s) ∧
      to_umax_upper_lower_evaluated false P upper lower =
        some (to_umax_upper_lower P upper lower)) ∧
    ((∀ r, convert_evaluated true P T F val = some r → r = convert P T F val) ∧
      (∀ r, convert_safe_evaluated true P T F s = some r → r = convert_safe P T F s) ∧
      (∀ r, to_umax_upper_lower_evaluated true P upper lower = some r →
        r = to_umax_upper_lower P upper lower)) ∧
    ((convert P T F val).valid = true →
      convert_evaluated true P T F val = some (convert P T F val)) ∧
    (s.invalid = true →
      convert_safe_evaluated true P T F s = some (convert_safe P T F s)) ∧
    ((convert P T F val).invalid = true → convert_evaluated true P T F val = none) ∧
    ((is_same P T .uint8 = false ∧ is_same P T .uint16 = false ∧
        is_same P T .uint32 = false ∧ is_same P T .uint64 = false) →
      to_umax_upper_lower_evaluated true P upper lower = none) := by
  refine ⟨⟨convert_evaluated_run_time P T F val, convert_safe_evaluated_run_time P T F s,
      to_umax_upper_lower_evaluated_run_time P T upper lower⟩,
    ⟨convert_evaluated_sound true P T F val, convert_safe_evaluated_sound true P T F s,
      to_umax_upper_lower_evaluated_sound true P T upper lower⟩, ?_, ?_, ?_, ?_⟩
  · intro hv
    rw [convert_evaluated_constant, if_neg]
    rw [poisoned_of_valid _ hv]
    exact Bool.false_ne_true
  · intro hs
    have hp : s.poisoned = true := hs
    rw [convert_safe_of_poisoned P T F s hp]
    simp [convert_safe_evaluated, hs]
  · intro hi
    have hp : (convert P T F val).poisoned = true := hi
    rw [convert_evaluated_constant, if_pos hp]
  · rintro ⟨h₈, h₁₆, h₃₂, h₆₄⟩
    simp [to_umax_upper_lower_evaluated, h₈, h₁₆, h₃₂, h₆₄,
      conversion_failure_bit_masks_on_signed_integral]

/-- Instances of the amended C30: the unsigned 32-bit 200 converted to `int16`
in a constant-evaluated context, a poisoned source, and the same 200 converted to
`int8`. -/
theorem constant_evaluation_agrees_witness :
    convert_evaluated true ⟨true⟩ .int16 .uint32 200 =
        some (convert ⟨true⟩ .int16 .uint32 200) ∧
      convert_safe_evaluated true ⟨true⟩ .int32 .int32 (safe_integral.mk 42 true) =
        some (convert_safe ⟨true⟩ .int32 .int32 (safe_integral.mk 42 true)) ∧
      convert_evaluated true ⟨true⟩ .int8 .uint32 200 = none :=
  ⟨(constant_evaluation_agrees ⟨true⟩ .int16 .uint32 200 (safe_integral.mk 0 false)
      (safe_integral.mk 0 false) (safe_integral.mk 0 false)).2.2.1 (by decide),
   (constant_evaluation_agrees ⟨true⟩ .int32 .int32 0 (safe_integral.mk 42 true)
      (safe_integral.mk 0 false) (safe_integral.mk 0 false)).2.2.2.1 rfl,
   (constant_evaluation_agrees ⟨true⟩ .int8 .uint32 200 (safe_integral.mk 0 false)
      (safe_integral.mk 0 false) (safe_integral.mk 0 false)).2.2.2.2.1 (by decide)⟩

/-! Relations between the conversions. -/

/-- C31: the unsafe conversions refine the checked ones: for `N` in 8, 16, 32, 64
and every raw value `v` of any type `F`, if `to_uN(v)` is valid then
`to_uN_unsafe(v)` returns the same value (the same `safe_integral`); the two can
differ only on inputs that `to_uN` rejects. -/
theorem unsafe_refines_checked (P : Platform) (F : IntType) (v : Int) :
    ((to_u8 P F v).valid = true →
      ( to_u8_unsafe v) = to_u8 P F v ∧ ( to_u8_unsafe v).get = (to_u8 P F v).get) ∧
    ((to_u16 P F v).valid = true →
      ( to_u16_unsafe v) = to_u16 P F v ∧ ( to_u16_unsafe v).get = (to_u16 P F v).get) ∧
    ((to_u32 P F v).valid = true →
      ( to_u32_unsafe v) = to_u32 P F v ∧ ( to_u32_unsafe v).get = (to_u32 P F v).get) ∧
    ((to_u64 P F v).valid = true →
      ( to_u64_unsafe v) = to_u64 P F v ∧ ( to_u64_unsafe v).get = (to_u64 P F v).get) ∧
    (( to_u8_unsafe v) ≠ to_u8 P F v → (to_u8 P F v).invalid = true) ∧
    (( to_u16_unsafe v) ≠ to_u16 P F v → (to_u16 P F v).invalid = true) ∧
    (( to_u32_unsafe v) ≠ to_u32 P F v → (to_u32 P F v).invalid = true) ∧
    (( to_u64_unsafe v) ≠ to_u64 P F v → (to_u64 P F v).invalid = true) := by
  have key : ∀ T : IntType, (convert P T F v).valid = true →
      safe_integral.mk (static_cast T v) false = convert P T F v ∧
        (safe_integral.mk (static_cast T v) false : safe_integral T).get =
          (convert P T F v).get := by
    intro T h
    have e := convert_valid_eq_cast P T F v h
    exact ⟨e, by rw [e]⟩
  have diff : ∀ T : IntType, safe_integral.mk (static_cast T v) false ≠ convert P T F v →
      (convert P T F v).invalid = true := by
    intro T hne
    cases hp : (convert P T F v).poisoned
    · exact absurd (convert_valid_eq_cast P T F v (by simp [safe_integral.valid, hp])) hne
    · exact hp
  exact ⟨key .uint8, key .uint16, key .uint32, key .uint64,
    diff .uint8, diff .uint16, diff .uint32, diff .uint64⟩

/-- Instance of C31: the `int32` value 200, which `to_u8` accepts. -/
theorem unsafe_refines_checked_witness :
    (to_u8 ⟨true⟩ .int32 200).valid = true ∧
      ( to_u8_unsafe 200) = to_u8 ⟨true⟩ .int32 200 :=
  ⟨by decide, ((unsafe_refines_checked ⟨true⟩ .int32 200).1 (by decide)).1⟩

/-- C32: extracting after merging returns what was merged: for `N` in 8, 16, 32,
64, every valid 64-bit upper and every valid `N`-bit unsigned lower,
`to_uN_unsafe(to_umax_upper_lower(upper, lower))` is valid and equals `lower`. -/
theorem extract_after_merge (P : Platform) (upper : safe_integral .uintmax)
    (l₈ : safe_integral .uint8) (l₁₆ : safe_integral .uint16)
    (l₃₂ : safe_integral .uint32) (l₆₄ : safe_integral .uint64)
    (hu : upper.valid = true) (huv : is_value .uintmax upper.get) :
    (l₈.valid = true → is_value .uint8 l₈.get →
      ( to_u8_unsafe_safe (to_umax_upper_lower P upper l₈)).valid = true ∧
        ( to_u8_unsafe_safe (to_umax_upper_lower P upper l₈)).get = l₈.get) ∧
    (l₁₆.valid = true → is_value .uint16 l₁₆.get →
      ( to_u16_unsafe_safe (to_umax_upper_lower P upper l₁₆)).valid = true ∧
        ( to_u16_unsafe_safe (to_umax_upper_lower P upper l₁₆)).get = l₁₆.get) ∧
    (l₃₂.valid = true → is_value .uint32 l₃₂.get →
      ( to_u32_unsafe_safe (to_umax_upper_lower P upper l₃₂)).valid = true ∧
        ( to_u32_unsafe_safe (to_umax_upper_lower P upper l₃₂)).get = l₃₂.get) ∧
    (l₆₄.valid = true → is_value .uint64 l₆₄.get →
      ( to_u64_unsafe_safe (to_umax_upper_lower P upper l₆₄)).valid = true ∧
        ( to_u64_unsafe_safe (to_umax_upper_lower P upper l₆₄)).get = l₆₄.get) := by
  have _hup := poisoned_of_valid upper hu
  have narrow : ∀ (T : IntType) (l : safe_integral T), (T = .uint8 ∨ T = .uint16 ∨ T = .uint32) →
      l.valid = true → is_value T l.get →
      (safe_integral.mk (static_cast T (to_umax_upper_lower P upper l).get) false :
          safe_integral T).valid = true ∧
        (safe_integral.mk (static_cast T (to_umax_upper_lower P upper l).get) false :
          safe_integral T).get = l.get := fun T l hT hl hlv =>
    ⟨rfl, extract_narrow P T upper l hT huv (poisoned_of_valid l hl) hlv⟩
  refine ⟨narrow .uint8 l₈ (Or.inl rfl), narrow .uint16 l₁₆ (Or.inr (Or.inl rfl)),
    narrow .uint32 l₃₂ (Or.inr (Or.inr rfl)), ?_⟩
  intro _ hlv
  refine ⟨rfl, ?_⟩
  show static_cast .uint64 (to_umax_upper_lower P upper l₆₄).get = l₆₄.get
  rw [to_umax_upper_lower_full P .uint64 upper l₆₄ (is_same_refl P .uint64)]
  exact static_cast_eq_self .uint64 l₆₄.value hlv

/-- Instance of C32, on the operands of the test suite: upper
`0xFFFFFFFFFFFFFFFF` merged with the 16-bit lower `0x0123`, then cast back. -/
theorem extract_after_merge_witness :
    ( to_u16_unsafe_safe (to_umax_upper_lower ⟨true⟩ (safe_integral.mk 0xFFFFFFFFFFFFFFFF false)
        (safe_integral.mk 0x0123 false : safe_integral .uint16))).valid = true ∧
      ( to_u16_unsafe_safe (to_umax_upper_lower ⟨true⟩
        (safe_integral.mk 0xFFFFFFFFFFFFFFFF false)
        (safe_integral.mk 0x0123 false : safe_integral .uint16))).get = 0x0123 :=
  (extract_after_merge ⟨true⟩ (safe_integral.mk 0xFFFFFFFFFFFFFFFF false)
    (safe_integral.mk 0 false) (safe_integral.mk 0x0123 false) (safe_integral.mk 0 false)
    (safe_integral.mk 0 false) rfl (by decide)).2.1 rfl (by decide)

/-- C33: merging a value's own low bits changes nothing: for `N` in 8, 16, 32, 64
and every valid 64-bit upper, `to_umax_upper_lower(upper, to_uN_unsafe(upper))`
is valid and equals `upper`. -/
theorem merge_own_low_bits (P : Platform) (upper : safe_integral .uintmax)
    (hu : upper.valid = true) (huv : is_value .uintmax upper.get) :
    (to_umax_upper_lower P upper ( to_u8_unsafe_safe upper) = upper ∧
      (to_umax_upper_lower P upper ( to_u8_unsafe_safe upper)).valid = true) ∧
    (to_umax_upper_lower P upper ( to_u16_unsafe_safe upper) = upper ∧
      (to_umax_upper_lower P upper ( to_u16_unsafe_safe upper)).valid = true) ∧
    (to_umax_upper_lower P upper ( to_u32_unsafe_safe upper) = upper ∧
      (to_umax_upper_lower P upper ( to_u32_unsafe_safe upper)).valid = true) ∧
    (to_umax_upper_lower P upper ( to_u64_unsafe_safe upper) = upper ∧
      (to_umax_upper_lower P upper ( to_u64_unsafe_safe upper)).valid = true) := by
  have hup := poisoned_of_valid upper hu
  have n₈ := merge_own_narrow P .uint8 upper (Or.inl rfl) huv
  have n₁₆ := merge_own_narrow P .uint16 upper (Or.inr (Or.inl rfl)) huv
  have n₃₂ := merge_own_narrow P .uint32 upper (Or.inr (Or.inr rfl)) huv
  have n₆₄ : to_umax_upper_lower P upper
      (safe_integral.mk (static_cast .uint64 upper.get) false : safe_integral .uint64) =
        upper := by
    rw [to_umax_upper_lower_full P .uint64 upper _ (is_same_refl P .uint64)]
    show safe_integral.mk (static_cast .uint64 upper.value) false = upper
    rw [static_cast_eq_self .uint64 upper.value huv, ← hup]
  have e₈ : to_umax_upper_lower P upper ( to_u8_unsafe_safe upper) = upper := n₈
  have e₁₆ : to_umax_upper_lower P upper ( to_u16_unsafe_safe upper) = upper := n₁₆
  have e₃₂ : to_umax_upper_lower P upper ( to_u32_unsafe_safe upper) = upper := n₃₂
  have e₆₄ : to_umax_upper_lower P upper ( to_u64_unsafe_safe upper) = upper := n₆₄
  rw [e₈, e₁₆, e₃₂, e₆₄]
  exact ⟨⟨rfl, hu⟩, ⟨rfl, hu⟩, ⟨rfl, hu⟩, ⟨rfl, hu⟩⟩

/-- Instance of C33: the valid upper `0x0123456789ABCDEF` and its own low 32
bits. -/
theorem merge_own_low_bits_witness :
    to_umax_upper_lower ⟨true⟩ (safe_integral.mk 0x0123456789ABCDEF false)
        ( to_u32_unsafe_safe (safe_integral.mk 0x0123456789ABCDEF false :
          safe_integral .uintmax)) =
      safe_integral.mk 0x0123456789ABCDEF false :=
  (merge_own_low_bits ⟨true⟩ (safe_integral.mk 0x0123456789ABCDEF false) rfl
    (by decide)).2.2.1.1

/-- C34: chained conversions are sound: for all types `F`, `M`, `T` and every
value `v` of type `F`, if `convert<T>(convert<M>(v))` is valid then `convert<T>(v)`
is valid and has the same value, which equals `v`.  Passing through an
intermediate type can make a conversion fail: the `int32` value 300 reaches
`int16` directly but not through `uint8`. -/
theorem convert_chain_sound (P : Platform) (T M F : IntType) (v : Int)
    (hv : is_value F v)
    (h : (convert_safe P T M (convert P M F v)).valid = true) :
    (convert P T F v).valid = true ∧
      (convert P T F v).get = (convert_safe P T M (convert P M F v)).get ∧
      (convert P T F v).get = v ∧
      (convert_safe P .int16 .uint8 (convert P .uint8 .int32 300)).invalid = true ∧
      (convert P .int16 .int32 300).valid = true := by
  have ex₁ : (convert_safe P .int16 .uint8 (convert P .uint8 .int32 300)).invalid = true := by
    rw [convert_of_not_is_value P .uint8 .int32 300 (by decide) (by decide),
      convert_safe_of_poisoned P .int16 .uint8 _ rfl]
    rfl
  have ex₂ : (convert P .int16 .int32 300).valid = true := by
    rw [convert_of_is_value P .int16 .int32 300 (by decide) (by decide)]
    rfl
  by_cases hM : is_value M v
  · rw [convert_of_is_value P M F v hv hM, convert_safe_of_valid P T M _ rfl] at h ⊢
    by_cases hT : is_value T v
    · rw [convert_of_is_value P T F v hv hT, convert_of_is_value P T M v hM hT]
      exact ⟨rfl, rfl, rfl, ex₁, ex₂⟩
    · rw [convert_of_not_is_value P T M v hM hT] at h
      exact absurd h Bool.false_ne_true
  · rw [convert_of_not_is_value P M F v hv hM, convert_safe_of_poisoned P T M _ rfl] at h
    exact absurd h Bool.false_ne_true

/-- Instance of C34: the `int64` value 100 sent to `int8` through `uint16`. -/
theorem convert_chain_sound_witness :
    is_value .int64 100 ∧
      (convert_safe ⟨true⟩ .int8 .uint16 (convert ⟨true⟩ .uint16 .int64 100)).valid = true ∧
      ((convert ⟨true⟩ .int8 .int64 100).valid = true ∧
        (convert ⟨true⟩ .int8 .int64 100).get = 100) :=
  ⟨by decide, by decide,
    (convert_chain_sound ⟨true⟩ .int8 .uint16 .int64 100 (by decide) (by decide)).1,
    (convert_chain_sound ⟨true⟩ .int8 .uint16 .int64 100 (by decide) (by decide)).2.2.1⟩

end bsl
